import Mathlib

/-!
Shallow embedding of the walm project orchestration core
(`pkg/project/project.go`) together with the collaborators it closes over.

The manager functions (`CreateProject`, `DeleteProject`,
`AddReleasesInProject`, `UpgradeReleaseInProject`, `RemoveReleaseInProject`,
`validateProjectTask`, `buildProjectInfo`, `isProjectReadyByReleases`,
`brainFuckChartDepParse`, `brainFuckRuntimeDepParse`) are translated from
`src/pkg/project/project.go`.  External collaborators that live outside the
provided sources (the redis-backed cache, the task broker, the helm client,
the `dag` utility package, `buildReleaseRequest`, `DeleteReleaseDependency`)
are modelled from the specification and abstracted into an environment
record whose fields stand for the results of the corresponding RPCs.
State effects (task submissions, cache writes) are made explicit in the
returned `OpResult`.
-/

namespace Walm

/-- Task broker signature: opaque (name, uuid) pair (`tasks.Signature`). -/
structure TaskSignature where
  name : String
  uuid : String
  deriving DecidableEq, Repr

/-- `cache.ProjectCache` record: namespace, name, latest task signature and
its timeout, as written by the manager (`project.go` lines 187-192 etc.). -/
structure ProjectCache where
  nspace : String
  name : String
  latestTaskSignature : TaskSignature
  latestTaskTimeoutSec : Int
  deriving DecidableEq, Repr

/-- Modelled from the spec: task state is one of pending / running /
success / failure (`task` package is not part of the provided sources). -/
inductive TaskStateKind where
  | pending
  | running
  | success
  | failure
  deriving DecidableEq, Repr

/-- `task.WalmTaskState` projection used by `buildProjectInfo`. -/
structure WalmTaskState where
  taskUUID : String
  taskName : String
  error : String
  state : TaskStateKind
  deriving DecidableEq, Repr

/-- Modelled from the spec: `TaskState.IsSuccess`. -/
def WalmTaskState.IsSuccess (t : WalmTaskState) : Bool :=
  t.state == TaskStateKind.success

/-- Modelled from the spec: `TaskState.IsFailure`. -/
def WalmTaskState.IsFailure (t : WalmTaskState) : Bool :=
  t.state == TaskStateKind.failure

/-- A Go `map[string]string` value: `none` is a nil map, `some l` an
association list with the map's entries. -/
abbrev DepMap := Option (List (String × String))

/-- Does the dependency map contain the key `k`. Reading a nil Go map
always misses. -/
def depsHasKey (deps : DepMap) (k : String) : Bool :=
  match deps with
  | none => false
  | some l => l.any (fun p => p.1 == k)

/-- The values of the dependency map (Go `for _, v := range m`). -/
def depsValues (deps : DepMap) : List String :=
  match deps with
  | none => []
  | some l => l.map Prod.snd

/-- Go map read `m[k]`: the value of the first entry with key `k`.  A nil
map always misses. -/
def depsLookup (deps : DepMap) (k : String) : Option String :=
  match deps with
  | none => none
  | some l => (l.find? (fun p => p.1 == k)).map Prod.snd

/-- Go map assignment `m[k] = v` on the entry list: overwrite the entry for
`k` if present, otherwise append it. -/
def assocSet (l : List (String × String)) (k v : String) : List (String × String) :=
  match l with
  | [] => [(k, v)]
  | (k', v') :: t => if k' == k then (k, v) :: t else (k', v') :: assocSet t k v

/-- `release.ReleaseInfoV2`: observed state of a live release. -/
structure ReleaseInfoV2 where
  name : String
  repoName : String
  chartName : String
  chartVersion : String
  dependencies : DepMap
  ready : Bool
  message : String
  deriving DecidableEq, Repr

/-- `release.ReleaseRequestV2`: user-supplied release spec. -/
structure ReleaseRequestV2 where
  name : String
  repoName : String
  chartName : String
  chartVersion : String
  dependencies : DepMap
  deriving DecidableEq, Repr

/-- `project.ProjectParams`: a bundle of release requests. -/
structure ProjectParams where
  releases : List ReleaseRequestV2
  deriving DecidableEq, Repr

/-- `project.ProjectInfo`: computed projection returned by
`buildProjectInfo`. -/
structure ProjectInfo where
  projectCache : ProjectCache
  releases : List ReleaseInfoV2
  latestTaskState : Option WalmTaskState
  ready : Bool
  message : String
  deriving DecidableEq, Repr

/-- Errors surfaced by the manager.  In Go these are `error` values; the
`notFound` case is the distinguished sentinel recognised by
`walmerr.IsNotFoundError`, `projectBusy` and `releaseNotInProject` carry the
data interpolated into their messages, and the remaining constructors carry
messages propagated verbatim from collaborators. -/
inductive WalmError where
  | notFound
  | projectBusy (name uuid : String)
  | emptyReleases
  | releaseNotInProject (releaseName projectName : String)
  | cacheReadFailed (msg : String)
  | sendTaskFailed (msg : String)
  | cacheWriteFailed (msg : String)
  | buildInfoFailed (msg : String)
  | waitFailed (msg : String)
  deriving DecidableEq, Repr

/-- The user-visible message of each error, with the literal format strings
of `project.go` (lines 154, 164, 306). -/
def WalmError.message : WalmError → String
  | .notFound => "record not found"
  | .projectBusy n u =>
      "please wait for the project latest task " ++ n ++ "-" ++ u ++ " finished or timeout"
  | .emptyReleases => "project releases can not be empty"
  | .releaseNotInProject r p => "release " ++ r ++ " is not found in project " ++ p
  | .cacheReadFailed m => m
  | .sendTaskFailed m => m
  | .cacheWriteFailed m => m
  | .buildInfoFailed m => m
  | .waitFailed m => m

/-- `walmerr.IsNotFoundError`. -/
def IsNotFoundError (e : WalmError) : Bool :=
  e == WalmError.notFound

/-- Result of `GetHelmCache().GetProjectCache(ns, name)` for the key the
operation touches.  `found pc fin` also carries the value of
`pc.IsLatestTaskFinishedOrTimeout()` (modelled from the spec: the predicate
combines broker task state and the wall clock, both external here). -/
inductive CacheLookup where
  | found (pc : ProjectCache) (finishedOrTimeout : Bool)
  | notFound
  | readError (msg : String)
  deriving DecidableEq, Repr

/-- Argument records submitted to the task broker (`Send*Task`). -/
inductive TaskArgs where
  | createProject (nspace name : String) (projectParams : ProjectParams)
  | deleteProject (nspace name : String) (deletePvcs : Bool)
  | addRelease (nspace name : String) (projectParams : ProjectParams)
  | upgradeRelease (nspace projectName : String) (releaseParams : ReleaseRequestV2)
  | removeRelease (nspace name releaseName : String) (deletePvcs : Bool)
  deriving DecidableEq, Repr

/-- Environment: the outcomes of the external calls a single manager
operation performs, in the order the Go code makes them. -/
structure Env where
  lookup : CacheLookup
  sendTask : Except String TaskSignature
  cacheWrite : Except String Unit
  listReleases : Except String (List ReleaseInfoV2)
  taskState : Option WalmTaskState
  waitResult : Except String Unit

/-- Observable outcome of a manager operation: the returned error (if any),
the tasks successfully submitted to the broker, and the project cache
entries successfully written. -/
structure OpResult where
  err : Option WalmError
  tasksSubmitted : List TaskArgs
  cacheWrites : List ProjectCache
  deriving DecidableEq, Repr

/-- `defaultTimeoutSec` (`project.go` line 22). -/
def defaultTimeoutSec : Int := 60

/-- Return value of `validateProjectTask`: the fetched cache (if any) and
the validation error (if any); on a busy project both are set. -/
structure ValidateResult where
  projectCache : Option ProjectCache
  err : Option WalmError
  deriving Repr

/-- `validateProjectTask` (`project.go` lines 141-160): load the cache;
a non-NotFound read error propagates; NotFound propagates unless
`allowProjectNotExist`; a cache whose latest task is neither finished nor
timed out yields the ProjectBusy error carrying the cached signature. -/
def validateProjectTask (lookup : CacheLookup) (allowProjectNotExist : Bool) : ValidateResult :=
  match lookup with
  | .readError m => ⟨none, some (.cacheReadFailed m)⟩
  | .notFound =>
      if allowProjectNotExist then ⟨none, none⟩ else ⟨none, some .notFound⟩
  | .found pc fin =>
      if fin then
        ⟨some pc, none⟩
      else
        ⟨some pc, some (.projectBusy pc.latestTaskSignature.name pc.latestTaskSignature.uuid)⟩

/-- Common tail of every mutating operation (`project.go`, e.g. lines
177-216): submit the task, write the fresh cache entry keyed by the
normalized timeout, best-effort purge of the prior signature (no observable
effect here), then optionally await the async result. -/
def submitAndFinish (env : Env) (args : TaskArgs) (nspace name : String)
    (timeoutSec : Int) (async : Bool) : OpResult :=
  match env.sendTask with
  | .error m => ⟨some (.sendTaskFailed m), [], []⟩
  | .ok sig =>
    let pc : ProjectCache := ⟨nspace, name, sig, timeoutSec⟩
    match env.cacheWrite with
    | .error m => ⟨some (.cacheWriteFailed m), [args], []⟩
    | .ok _ =>
      if async then ⟨none, [args], [pc]⟩
      else
        match env.waitResult with
        | .error m => ⟨some (.waitFailed m), [args], [pc]⟩
        | .ok _ => ⟨none, [args], [pc]⟩

/-- `CreateProject` (`project.go` lines 162-217). -/
def CreateProject (env : Env) (nspace project : String) (projectParams : ProjectParams)
    (async : Bool) (timeoutSec : Int) : OpResult :=
  if projectParams.releases.length == 0 then ⟨some .emptyReleases, [], []⟩
  else
    let timeoutSec := if timeoutSec == 0 then defaultTimeoutSec else timeoutSec
    let vr := validateProjectTask env.lookup true
    match vr.err with
    | some e => ⟨some e, [], []⟩
    | none =>
        submitAndFinish env (.createProject nspace project projectParams)
          nspace project timeoutSec async

/-- `DeleteProject` (`project.go` lines 219-274): NotFound from validation
is swallowed into a success. -/
def DeleteProject (env : Env) (nspace project : String) (async : Bool)
    (timeoutSec : Int) (deletePvcs : Bool) : OpResult :=
  let vr := validateProjectTask env.lookup false
  match vr.err with
  | some e =>
      if IsNotFoundError e then ⟨none, [], []⟩ else ⟨some e, [], []⟩
  | none =>
      let timeoutSec := if timeoutSec == 0 then defaultTimeoutSec else timeoutSec
      submitAndFinish env (.deleteProject nspace project deletePvcs)
        nspace project timeoutSec async

/-- `isProjectReadyByReleases` (`project.go` lines 125-139). -/
def isProjectReadyByReleases (releases : List ReleaseInfoV2) : Bool × String :=
  if releases.length > 0 then
    match releases.find? (fun r => !r.ready) with
    | some r => (false, r.message)
    | none => (true, "")
  else
    (false, "no release can be found")

/-- `buildProjectInfo` (`project.go` lines 91-123), with the release listing
result supplied by the environment. -/
def buildProjectInfo (projectCache : ProjectCache) (taskState : Option WalmTaskState)
    (listResult : Except String (List ReleaseInfoV2)) : Except String ProjectInfo :=
  match listResult with
  | .error m => .error m
  | .ok releases =>
    let sig := projectCache.latestTaskSignature
    let rm : Bool × String :=
      match taskState with
      | none => isProjectReadyByReleases releases
      | some ts =>
        if ts.taskName == "" then isProjectReadyByReleases releases
        else if ts.IsSuccess then isProjectReadyByReleases releases
        else if ts.IsFailure then
          (false, "the project latest task " ++ sig.name ++ "-" ++ sig.uuid
            ++ " failed : " ++ ts.error)
        else
          (false, "please wait for the project latest task " ++ sig.name ++ "-"
            ++ sig.uuid ++ " finished")
    .ok ⟨projectCache, releases, taskState, rm.1, rm.2⟩

/-- `UpgradeReleaseInProject` (`project.go` lines 280-355): NotFound from
validation is swallowed into a success; a missing release is an error. -/
def UpgradeReleaseInProject (env : Env) (nspace projectName : String)
    (releaseParams : ReleaseRequestV2) (async : Bool) (timeoutSec : Int) : OpResult :=
  let vr := validateProjectTask env.lookup false
  match vr.err with
  | some e =>
      if IsNotFoundError e then ⟨none, [], []⟩ else ⟨some e, [], []⟩
  | none =>
    match vr.projectCache with
    -- unreachable: with allowProjectNotExist=false a missing cache yields an error
    | none => ⟨none, [], []⟩
    | some oldPc =>
      match buildProjectInfo oldPc env.taskState env.listReleases with
      | .error m => ⟨some (.buildInfoFailed m), [], []⟩
      | .ok projectInfo =>
        if projectInfo.releases.any (fun r => r.name == releaseParams.name) then
          let timeoutSec := if timeoutSec == 0 then defaultTimeoutSec else timeoutSec
          submitAndFinish env (.upgradeRelease nspace projectName releaseParams)
            nspace projectName timeoutSec async
        else
          ⟨some (.releaseNotInProject releaseParams.name projectName), [], []⟩

/-- `RemoveReleaseInProject` (`project.go` lines 357-432): NotFound from
validation is swallowed; a missing release is a no-op success. -/
def RemoveReleaseInProject (env : Env) (nspace projectName releaseName : String)
    (async : Bool) (timeoutSec : Int) (deletePvcs : Bool) : OpResult :=
  let vr := validateProjectTask env.lookup false
  match vr.err with
  | some e =>
      if IsNotFoundError e then ⟨none, [], []⟩ else ⟨some e, [], []⟩
  | none =>
    match vr.projectCache with
    -- unreachable: with allowProjectNotExist=false a missing cache yields an error
    | none => ⟨none, [], []⟩
    | some oldPc =>
      match buildProjectInfo oldPc env.taskState env.listReleases with
      | .error m => ⟨some (.buildInfoFailed m), [], []⟩
      | .ok projectInfo =>
        if projectInfo.releases.any (fun r => r.name == releaseName) then
          let timeoutSec := if timeoutSec == 0 then defaultTimeoutSec else timeoutSec
          submitAndFinish env (.removeRelease nspace projectName releaseName deletePvcs)
            nspace projectName timeoutSec async
        else
          ⟨none, [], []⟩

/-- `AddReleasesInProject` (`project.go` lines 580-635). -/
def AddReleasesInProject (env : Env) (nspace projectName : String)
    (projectParams : ProjectParams) (async : Bool) (timeoutSec : Int) : OpResult :=
  if projectParams.releases.length == 0 then ⟨some .emptyReleases, [], []⟩
  else
    let vr := validateProjectTask env.lookup true
    match vr.err with
    | some e => ⟨some e, [], []⟩
    | none =>
        let timeoutSec := if timeoutSec == 0 then defaultTimeoutSec else timeoutSec
        submitAndFinish env (.addRelease nspace projectName projectParams)
          nspace projectName timeoutSec async

/-- `AddReleaseInProject` (`project.go` lines 276-278): wrap the single
release and delegate. -/
def AddReleaseInProject (env : Env) (nspace projectName : String)
    (releaseParams : ReleaseRequestV2) (async : Bool) (timeoutSec : Int) : OpResult :=
  AddReleasesInProject env nspace projectName ⟨[releaseParams]⟩ async timeoutSec

/-! ## The dependency resolvers

The `dag` utility package is not part of the provided sources; its graph is
modelled from the spec: `Add`/`Connect` (set semantics), `UpEdges(v)` (the
sources of edges into `v`), `DownEdges(v)` (the targets of edges out of
`v`), `Root()` (the unique vertex with no incoming edges, or an error), and
`Walk` (visits every vertex exactly once, a vertex only after all targets
of its outgoing edges, failing on cycles; an edge `A -> B` reads "A depends
on B", so B is realized before A). -/

/-- Modelled from the spec: the runtime resolver's `dag.AcyclicGraph`
keyed by release-name strings. -/
structure StrGraph where
  vertices : List String
  edges : List (String × String)
  deriving DecidableEq, Repr

/-- Modelled from the spec: `dag.Graph.Add` (idempotent vertex insert). -/
def StrGraph.add (g : StrGraph) (v : String) : StrGraph :=
  if g.vertices.contains v then g else { g with vertices := g.vertices ++ [v] }

/-- Modelled from the spec: `dag.Graph.Connect` (idempotent edge insert). -/
def StrGraph.connect (g : StrGraph) (e : String × String) : StrGraph :=
  if g.edges.contains e then g else { g with edges := g.edges ++ [e] }

/-- Connect every edge of a list in order (the Go loops that call
`Connect` once per candidate pair). -/
def StrGraph.connectAll (g : StrGraph) (l : List (String × String)) : StrGraph :=
  l.foldl StrGraph.connect g

/-- Modelled from the spec: `dag.Graph.UpEdges(v).List()` — the sources of
edges whose target is `v`. -/
def StrGraph.upEdges (g : StrGraph) (v : String) : List String :=
  (g.edges.filter (fun e => e.2 == v)).map Prod.fst

/-- Modelled from the spec: `dag.Graph.DownEdges(v).List()` — the targets
of edges whose source is `v`. -/
def StrGraph.downEdges (g : StrGraph) (v : String) : List String :=
  (g.edges.filter (fun e => e.1 == v)).map Prod.snd

/-- Modelled from the spec: `buildReleaseRequest` (defined elsewhere in the
`project` package) projects the named `ReleaseInfoV2` of the project back
into a `ReleaseRequestV2`, or returns nil if no release has that name. -/
def buildReleaseRequest (projectInfo : ProjectInfo) (releaseName : String) :
    Option ReleaseRequestV2 :=
  (projectInfo.releases.find? (fun r => r.name == releaseName)).map
    (fun r => ⟨r.name, r.repoName, r.chartName, r.chartVersion, r.dependencies⟩)

/-- Modelled from the spec: `helm.DeleteReleaseDependency(map, chartName)`
removes any entry whose key equals `chartName` (a no-op on a nil map). -/
def DeleteReleaseDependency (deps : DepMap) (chartName : String) : DepMap :=
  match deps with
  | none => none
  | some l => some (l.filter (fun p => p.1 != chartName))

/-- The per-release `GetAutoDependencies` calls a resolver loop makes, in
order, stopping at the first failure (the Go loops return the error
immediately). -/
def autoDepsForEach {α : Type} (f : α → Except String (List String)) :
    List α → Except String (List (List String))
  | [] => .ok []
  | r :: t =>
    match f r with
    | .error m => .error m
    | .ok sc =>
      match autoDepsForEach f t with
      | .error m => .error m
      | .ok rest => .ok (sc :: rest)

/-- Init-phase edges of `brainFuckRuntimeDepParse` (`project.go` lines
443-448): one edge `(r.name, v)` per value `v` of each release's
dependency map. -/
def runtimeInitEdges (releases : List ReleaseInfoV2) : List (String × String) :=
  releases.flatMap (fun r => (depsValues r.dependencies).map (fun v => (r.name, v)))

/-- Init phase of `brainFuckRuntimeDepParse` (`project.go` lines 438-448):
a vertex per existing release, plus the dependency-value edges. -/
def runtimeInitGraph (releases : List ReleaseInfoV2) : StrGraph :=
  (releases.foldl (fun (g : StrGraph) r => g.add r.name) ⟨[], []⟩).connectAll
    (runtimeInitEdges releases)

/-- Add-path edges from existing releases to the incoming release
(`project.go` lines 452-463): for each existing release whose chart
auto-declares a subchart equal to the incoming chart name that is not
already a key of its dependencies.  `subChartsList` pairs each release with
its `GetAutoDependencies` result. -/
def runtimeUpperChartEdges (releases : List ReleaseInfoV2) (subChartsList : List (List String))
    (rp : ReleaseRequestV2) : List (String × String) :=
  (releases.zip subChartsList).flatMap (fun p =>
    p.2.filterMap (fun s =>
      if s == rp.chartName && !(depsHasKey p.1.dependencies s) then
        some (p.1.name, rp.name)
      else none))

/-- Add-path edges from the incoming release to existing releases
(`project.go` lines 468-478): for each auto-declared subchart of the
incoming chart that is not already a key of its dependencies, one edge to
every existing release of that chart. -/
def runtimeIncomingEdges (releases : List ReleaseInfoV2) (rp : ReleaseRequestV2)
    (releaseSubCharts : List String) : List (String × String) :=
  releaseSubCharts.flatMap (fun s =>
    if depsHasKey rp.dependencies s then []
    else releases.filterMap (fun r =>
      if s == r.chartName then some (rp.name, r.name) else none))

/-- Upper-stream rewrite of the add path (`project.go` lines 480-493):
project each parent, insert the incoming entry when its chart name is not
yet a key (initializing a nil map), and emit every parent as affected. -/
def runtimeUpperRewrite (projectInfo : ProjectInfo) (rp : ReleaseRequestV2)
    (uppers : List String) : List ReleaseRequestV2 :=
  match uppers with
  | [] => []
  | u :: rest =>
    match buildReleaseRequest projectInfo u with
    | none => runtimeUpperRewrite projectInfo rp rest
    | some ur =>
      let ur' :=
        if depsHasKey ur.dependencies rp.chartName then ur
        else { ur with dependencies := some (assocSet (ur.dependencies.getD []) rp.chartName rp.name) }
      ur' :: runtimeUpperRewrite projectInfo rp rest

/-- Down-stream absorb of the add path (`project.go` lines 496-509): the
incoming release acquires an entry per child whose chart name it does not
yet list (initializing a nil map). -/
def runtimeDownAbsorb (projectInfo : ProjectInfo) (downs : List String)
    (rp : ReleaseRequestV2) : ReleaseRequestV2 :=
  downs.foldl (fun p d =>
    match buildReleaseRequest projectInfo d with
    | none => p
    | some dr =>
      if depsHasKey p.dependencies dr.chartName then p
      else { p with dependencies := some (assocSet (p.dependencies.getD []) dr.chartName dr.name) }) rp

/-- Remove path of `brainFuckRuntimeDepParse` (`project.go` lines 510-521):
project each parent of the outgoing release, delete the entry keyed by the
outgoing chart name, and emit it as affected. -/
def runtimeRemoveRewrite (projectInfo : ProjectInfo) (rp : ReleaseRequestV2)
    (uppers : List String) : List ReleaseRequestV2 :=
  uppers.filterMap (fun u =>
    (buildReleaseRequest projectInfo u).map (fun ur =>
      { ur with dependencies := DeleteReleaseDependency ur.dependencies rp.chartName }))

/-- `brainFuckRuntimeDepParse` (`project.go` lines 434-524).  `autoDeps`
stands for `helmClient.GetAutoDependencies(repo, chart, version)`.  The Go
function returns the affected list and mutates `releaseParams` through its
pointer; the pair returned here carries both. -/
def brainFuckRuntimeDepParse (autoDeps : String → String → String → Except String (List String))
    (projectInfo : ProjectInfo) (releaseParams : ReleaseRequestV2) (isRemove : Bool) :
    Except String (List ReleaseRequestV2 × ReleaseRequestV2) :=
  let g := runtimeInitGraph projectInfo.releases
  if isRemove then
    .ok (runtimeRemoveRewrite projectInfo releaseParams (g.upEdges releaseParams.name),
         releaseParams)
  else
    let g := g.add releaseParams.name
    match autoDepsForEach (fun (r : ReleaseInfoV2) => autoDeps r.repoName r.chartName r.chartVersion)
        projectInfo.releases with
    | .error m => .error m
    | .ok subChartsList =>
      let g := g.connectAll (runtimeUpperChartEdges projectInfo.releases subChartsList releaseParams)
      match autoDeps releaseParams.repoName releaseParams.chartName releaseParams.chartVersion with
      | .error m => .error m
      | .ok releaseSubCharts =>
        let g := g.connectAll (runtimeIncomingEdges projectInfo.releases releaseParams releaseSubCharts)
        .ok (runtimeUpperRewrite projectInfo releaseParams (g.upEdges releaseParams.name),
             runtimeDownAbsorb projectInfo (g.downEdges releaseParams.name) releaseParams)

/-! ### Chart-time resolver

`brainFuckChartDepParse` keys its graph by `*ReleaseRequestV2` pointer
identity; here vertices are the positions of the releases in the input
bundle, which is the same identity. -/

/-- The Go map `projectParamsMap[chartName] = releaseInfo` built by
iterating the bundle (`project.go` lines 531-533): the position of the
last release carrying the chart name. -/
def chartIndex (releases : List ReleaseRequestV2) (s : String) : Option Nat :=
  ((releases.enum.filter (fun p => p.2.chartName == s)).getLast?).map Prod.fst

/-- Edge-init phase of `brainFuckChartDepParse` (`project.go` lines
540-554): an edge from release `i` to the bundle position of subchart `s`
for each auto-declared subchart `s` of `i`'s chart that is in the bundle
and not already a key of `i`'s dependencies.  `subChartsList` pairs each
release with its `GetAutoDependencies` result. -/
def chartBundleEdges (subChartsList : List (List String)) (releases : List ReleaseRequestV2) :
    List (Nat × Nat) :=
  (releases.enum.zip subChartsList).flatMap (fun p =>
    p.2.filterMap (fun s =>
      match chartIndex releases s with
      | some j => if depsHasKey p.1.2.dependencies s then none else some (p.1.1, j)
      | none => none))

/-- Modelled from the spec: `dag.Root()` candidates — the vertices with no
incoming edge.  `Root()` errors unless there is exactly one. -/
def chartRoots (n : Nat) (edges : List (Nat × Nat)) : List Nat :=
  (List.range n).filter (fun i => !(edges.any (fun e => e.2 == i)))

/-- Direct children of vertex `i`: the targets of its outgoing edges. -/
def childrenOf (edges : List (Nat × Nat)) (i : Nat) : List Nat :=
  (edges.filter (fun e => e.1 == i)).map Prod.snd

/-- Modelled from the spec: a deterministic sequentialization of
`dag.Walk` — repeatedly visit the first unvisited vertex all of whose
children are visited; if none exists while vertices remain, the walk fails
(cycle).  Fuel is the initial vertex count. -/
def walkOrderAux (children : Nat → List Nat) :
    Nat → List Nat → List Nat → Option (List Nat)
  | 0, remaining, acc => if remaining.isEmpty then some acc.reverse else none
  | fuel+1, remaining, acc =>
    match remaining.find? (fun i => (children i).all (fun j => acc.contains j)) with
    | some i => walkOrderAux children fuel (remaining.erase i) (i :: acc)
    | none => if remaining.isEmpty then some acc.reverse else none

/-- The dependency updates the walk body applies at vertex `i`
(`project.go` lines 562-572): one map write `deps[child.chartName] =
child.name` per down edge.  A write on a nil Go map is a run-time fault,
returned as `none`. -/
def chartApplyDeps (releases : List ReleaseRequestV2) (edges : List (Nat × Nat)) (i : Nat) :
    Option ReleaseRequestV2 :=
  match releases.get? i with
  | none => none
  | some r =>
    if (childrenOf edges i).isEmpty then some r
    else
      match r.dependencies with
      | none => none
      | some d =>
        some { r with dependencies := some ((childrenOf edges i).foldl (fun acc j =>
          match releases.get? j with
          | none => acc
          | some c => assocSet acc c.chartName c.name) d) }

/-- The walk body applied to every vertex of the visit order, stopping at
the first nil-map write. -/
def applyDepsAll (releases : List ReleaseRequestV2) (edges : List (Nat × Nat)) :
    List Nat → Option (List ReleaseRequestV2)
  | [] => some []
  | i :: t =>
    match chartApplyDeps releases edges i with
    | none => none
    | some r =>
      match applyDepsAll releases edges t with
      | none => none
      | some rest => some (r :: rest)

/-- Outcomes of `brainFuckChartDepParse` other than a parsed list:
a failed `GetAutoDependencies` call, `Root()` failing (no or multiple
roots), `Walk` failing (cycle), or the walk body's write to a nil
dependency map (a run-time fault in Go, made explicit here). -/
inductive ChartParseError where
  | autoDepsFailed (msg : String)
  | noUniqueRoot
  | walkFailed
  | nilMapWrite
  deriving DecidableEq, Repr

/-- `brainFuckChartDepParse` (`project.go` lines 526-578). -/
def brainFuckChartDepParse (autoDeps : String → String → String → Except String (List String))
    (projectParams : ProjectParams) : Except ChartParseError (List ReleaseRequestV2) :=
  match autoDepsForEach (fun (r : ReleaseRequestV2) => autoDeps r.repoName r.chartName r.chartVersion)
      projectParams.releases with
  | .error m => .error (.autoDepsFailed m)
  | .ok subChartsList =>
    if (chartRoots projectParams.releases.length
          (chartBundleEdges subChartsList projectParams.releases)).length == 1 then
      match walkOrderAux (childrenOf (chartBundleEdges subChartsList projectParams.releases))
          projectParams.releases.length (List.range projectParams.releases.length) [] with
      | none => .error .walkFailed
      | some ord =>
        match applyDepsAll projectParams.releases
            (chartBundleEdges subChartsList projectParams.releases) ord with
        | none => .error .nilMapWrite
        | some out => .ok out
    else
      .error .noUniqueRoot

/-! ## Concrete fixtures used by witnesses and counterexamples -/

/-- A broker signature as returned by a successful submit. -/
def sig1 : TaskSignature := ⟨"create_project", "uuid-1"⟩

/-- A cached project whose latest task signature is `sig1`. -/
def pcBusy : ProjectCache := ⟨"t1", "p1", sig1, 60⟩

/-- Environment: the project cache is absent, all other calls succeed. -/
def envNotFound : Env := ⟨.notFound, .ok sig1, .ok (), .ok [], none, .ok ()⟩

/-- Environment: the cached project's latest task is still outstanding. -/
def envBusy : Env := ⟨.found pcBusy false, .ok sig1, .ok (), .ok [], none, .ok ()⟩

/-- Environment: the cached project's latest task is finished or timed out
and the live release listing returns `rels`. -/
def envReady (rels : List ReleaseInfoV2) : Env :=
  ⟨.found pcBusy true, .ok sig1, .ok (), .ok rels, none, .ok ()⟩

/-- Scenario S1 release `a` of chart `zk`. -/
def relA : ReleaseRequestV2 := ⟨"a", "stable", "zk", "1.0", none⟩

/-- Scenario S1 release `b` of chart `kafka` depending on `a`. -/
def relB : ReleaseRequestV2 := ⟨"b", "stable", "kafka", "1.0", some [("zk", "a")]⟩

/-- Scenario S1 project params. -/
def paramsS1 : ProjectParams := ⟨[relA, relB]⟩

/-! ## Claims about the lifecycle facade -/

/-- The single-flight condition: a cache exists for the key and its latest
task is neither finished nor timed out. -/
def isBusyLookup (lk : CacheLookup) : Bool :=
  match lk with
  | .found _ fin => !fin
  | _ => false

/-- Whether an operation outcome is the ProjectBusy error. -/
def errIsBusy (e : Option WalmError) : Bool :=
  match e with
  | some (.projectBusy _ _) => true
  | _ => false

/-- An operation fails with ProjectBusy exactly when the single-flight
condition holds, and in that case it carries the cached signature and has
no effects. -/
def busyFails (env : Env) (r : OpResult) : Prop :=
  errIsBusy r.err = isBusyLookup env.lookup ∧
  ∀ pc, env.lookup = CacheLookup.found pc false →
    r.err = some (.projectBusy pc.latestTaskSignature.name pc.latestTaskSignature.uuid) ∧
    r.tasksSubmitted = [] ∧ r.cacheWrites = []

/-- The shared submit/write/await tail never produces the ProjectBusy
error. -/
theorem errIsBusy_tail (env : Env) (args : TaskArgs) (nspace name : String)
    (timeoutSec : Int) (async : Bool) :
    errIsBusy (submitAndFinish env args nspace name timeoutSec async).err = false := by
  obtain ⟨lk, st, cw, lr, ts, wr⟩ := env
  cases st <;> cases cw <;> cases async <;> cases wr <;> simp [submitAndFinish, errIsBusy]

theorem busyFails_create (env : Env) (nspace project : String) (params : ProjectParams)
    (async : Bool) (timeoutSec : Int) (h : params.releases ≠ []) :
    busyFails env (CreateProject env nspace project params async timeoutSec) := by
  rcases params with ⟨prels⟩
  cases prels with
  | nil => exact absurd rfl h
  | cons a l =>
    obtain ⟨lk, st, cw, lr, ts, wr⟩ := env
    cases lk with
    | found pc fin =>
      cases fin
      · refine ⟨by simp [CreateProject, validateProjectTask, errIsBusy, isBusyLookup], ?_⟩
        intro pc' hpc'
        injection hpc' with h1 h2
        subst h1
        simp [CreateProject, validateProjectTask]
      · refine ⟨?_, ?_⟩
        · simpa [CreateProject, validateProjectTask, isBusyLookup] using
            errIsBusy_tail ⟨.found pc true, st, cw, lr, ts, wr⟩ _ nspace project _ async
        · intro pc' hpc'
          simp at hpc'
    | notFound =>
      refine ⟨?_, ?_⟩
      · simpa [CreateProject, validateProjectTask, isBusyLookup] using
          errIsBusy_tail ⟨.notFound, st, cw, lr, ts, wr⟩ _ nspace project _ async
      · intro pc' hpc'
        simp at hpc'
    | readError m =>
      refine ⟨by simp [CreateProject, validateProjectTask, errIsBusy, isBusyLookup], ?_⟩
      intro pc' hpc'
      simp at hpc'

theorem busyFails_add (env : Env) (nspace project : String) (params : ProjectParams)
    (async : Bool) (timeoutSec : Int) (h : params.releases ≠ []) :
    busyFails env (AddReleasesInProject env nspace project params async timeoutSec) := by
  rcases params with ⟨prels⟩
  cases prels with
  | nil => exact absurd rfl h
  | cons a l =>
    obtain ⟨lk, st, cw, lr, ts, wr⟩ := env
    cases lk with
    | found pc fin =>
      cases fin
      · refine ⟨by simp [AddReleasesInProject, validateProjectTask, errIsBusy, isBusyLookup], ?_⟩
        intro pc' hpc'
        injection hpc' with h1 h2
        subst h1
        simp [AddReleasesInProject, validateProjectTask]
      · refine ⟨?_, ?_⟩
        · simpa [AddReleasesInProject, validateProjectTask, isBusyLookup] using
            errIsBusy_tail ⟨.found pc true, st, cw, lr, ts, wr⟩ _ nspace project _ async
        · intro pc' hpc'
          simp at hpc'
    | notFound =>
      refine ⟨?_, ?_⟩
      · simpa [AddReleasesInProject, validateProjectTask, isBusyLookup] using
          errIsBusy_tail ⟨.notFound, st, cw, lr, ts, wr⟩ _ nspace project _ async
      · intro pc' hpc'
        simp at hpc'
    | readError m =>
      refine ⟨by simp [AddReleasesInProject, validateProjectTask, errIsBusy, isBusyLookup], ?_⟩
      intro pc' hpc'
      simp at hpc'

theorem busyFails_delete (env : Env) (nspace project : String)
    (async : Bool) (timeoutSec : Int) (deletePvcs : Bool) :
    busyFails env (DeleteProject env nspace project async timeoutSec deletePvcs) := by
  obtain ⟨lk, st, cw, lr, ts, wr⟩ := env
  cases lk with
  | found pc fin =>
    cases fin
    · refine ⟨by simp [DeleteProject, validateProjectTask, IsNotFoundError, errIsBusy, isBusyLookup], ?_⟩
      intro pc' hpc'
      injection hpc' with h1 h2
      subst h1
      simp [DeleteProject, validateProjectTask, IsNotFoundError]
    · refine ⟨?_, ?_⟩
      · simpa [DeleteProject, validateProjectTask, IsNotFoundError, isBusyLookup] using
          errIsBusy_tail ⟨.found pc true, st, cw, lr, ts, wr⟩ _ nspace project _ async
      · intro pc' hpc'
        simp at hpc'
  | notFound =>
    refine ⟨by simp [DeleteProject, validateProjectTask, IsNotFoundError, errIsBusy, isBusyLookup], ?_⟩
    intro pc' hpc'
    simp at hpc'
  | readError m =>
    refine ⟨by simp [DeleteProject, validateProjectTask, IsNotFoundError, errIsBusy, isBusyLookup], ?_⟩
    intro pc' hpc'
    simp at hpc'

theorem busyFails_upgrade (env : Env) (nspace projectName : String)
    (releaseParams : ReleaseRequestV2) (async : Bool) (timeoutSec : Int) :
    busyFails env (UpgradeReleaseInProject env nspace projectName releaseParams async timeoutSec) := by
  obtain ⟨lk, st, cw, lr, ts, wr⟩ := env
  cases lk with
  | found pc fin =>
    cases fin
    · refine ⟨by simp [UpgradeReleaseInProject, validateProjectTask, IsNotFoundError, errIsBusy, isBusyLookup], ?_⟩
      intro pc' hpc'
      injection hpc' with h1 h2
      subst h1
      simp [UpgradeReleaseInProject, validateProjectTask, IsNotFoundError]
    · refine ⟨?_, ?_⟩
      · cases lr with
        | error m =>
            simp [UpgradeReleaseInProject, validateProjectTask, IsNotFoundError,
              buildProjectInfo, errIsBusy, isBusyLookup]
        | ok rels =>
          cases hany : rels.any (fun r => r.name == releaseParams.name)
          · simp [UpgradeReleaseInProject, validateProjectTask, IsNotFoundError,
              buildProjectInfo, hany, errIsBusy, isBusyLookup]
          · simpa [UpgradeReleaseInProject, validateProjectTask, IsNotFoundError,
              buildProjectInfo, hany, isBusyLookup] using
              errIsBusy_tail ⟨.found pc true, st, cw, .ok rels, ts, wr⟩ _ nspace projectName _ async
      · intro pc' hpc'
        simp at hpc'
  | notFound =>
    refine ⟨by simp [UpgradeReleaseInProject, validateProjectTask, IsNotFoundError, errIsBusy, isBusyLookup], ?_⟩
    intro pc' hpc'
    simp at hpc'
  | readError m =>
    refine ⟨by simp [UpgradeReleaseInProject, validateProjectTask, IsNotFoundError, errIsBusy, isBusyLookup], ?_⟩
    intro pc' hpc'
    simp at hpc'

theorem busyFails_remove (env : Env) (nspace projectName releaseName : String)
    (async : Bool) (timeoutSec : Int) (deletePvcs : Bool) :
    busyFails env (RemoveReleaseInProject env nspace projectName releaseName async timeoutSec deletePvcs) := by
  obtain ⟨lk, st, cw, lr, ts, wr⟩ := env
  cases lk with
  | found pc fin =>
    cases fin
    · refine ⟨by simp [RemoveReleaseInProject, validateProjectTask, IsNotFoundError, errIsBusy, isBusyLookup], ?_⟩
      intro pc' hpc'
      injection hpc' with h1 h2
      subst h1
      simp [RemoveReleaseInProject, validateProjectTask, IsNotFoundError]
    · refine ⟨?_, ?_⟩
      · cases lr with
        | error m =>
            simp [RemoveReleaseInProject, validateProjectTask, IsNotFoundError,
              buildProjectInfo, errIsBusy, isBusyLookup]
        | ok rels =>
          cases hany : rels.any (fun r => r.name == releaseName)
          · simp [RemoveReleaseInProject, validateProjectTask, IsNotFoundError,
              buildProjectInfo, hany, errIsBusy, isBusyLookup]
          · simpa [RemoveReleaseInProject, validateProjectTask, IsNotFoundError,
              buildProjectInfo, hany, isBusyLookup] using
              errIsBusy_tail ⟨.found pc true, st, cw, .ok rels, ts, wr⟩ _ nspace projectName _ async
      · intro pc' hpc'
        simp at hpc'
  | notFound =>
    refine ⟨by simp [RemoveReleaseInProject, validateProjectTask, IsNotFoundError, errIsBusy, isBusyLookup], ?_⟩
    intro pc' hpc'
    simp at hpc'
  | readError m =>
    refine ⟨by simp [RemoveReleaseInProject, validateProjectTask, IsNotFoundError, errIsBusy, isBusyLookup], ?_⟩
    intro pc' hpc'
    simp at hpc'

/-- C1: every mutating operation fails with the ProjectBusy error — whose
message is `please wait for the project latest task <name>-<uuid> finished
or timeout`, carrying the cached signature — if and only if a project cache
exists for the key and its latest task is neither finished nor timed out;
in that case no task is submitted and no cache entry is written.  (For
Create/Add the bundle must be nonempty, otherwise the EmptyReleases check
fires first.) -/
theorem C1_single_flight_busy (env : Env) (nspace projectName : String)
    (projectParams : ProjectParams) (releaseParams : ReleaseRequestV2)
    (releaseName : String) (async : Bool) (timeoutSec : Int) (deletePvcs : Bool)
    (h : projectParams.releases ≠ []) :
    busyFails env (CreateProject env nspace projectName projectParams async timeoutSec) ∧
    busyFails env (DeleteProject env nspace projectName async timeoutSec deletePvcs) ∧
    busyFails env (AddReleasesInProject env nspace projectName projectParams async timeoutSec) ∧
    busyFails env (UpgradeReleaseInProject env nspace projectName releaseParams async timeoutSec) ∧
    busyFails env (RemoveReleaseInProject env nspace projectName releaseName async timeoutSec deletePvcs) ∧
    ∀ n u, (WalmError.projectBusy n u).message =
      "please wait for the project latest task " ++ n ++ "-" ++ u ++ " finished or timeout" :=
  ⟨busyFails_create env nspace projectName projectParams async timeoutSec h,
   busyFails_delete env nspace projectName async timeoutSec deletePvcs,
   busyFails_add env nspace projectName projectParams async timeoutSec h,
   busyFails_upgrade env nspace projectName releaseParams async timeoutSec,
   busyFails_remove env nspace projectName releaseName async timeoutSec deletePvcs,
   fun _ _ => rfl⟩

theorem C1_single_flight_busy_witness :
    paramsS1.releases ≠ [] ∧
    (busyFails envBusy (CreateProject envBusy "t1" "p1" paramsS1 true 0) ∧
     busyFails envBusy (DeleteProject envBusy "t1" "p1" true 0 false) ∧
     busyFails envBusy (AddReleasesInProject envBusy "t1" "p1" paramsS1 true 0) ∧
     busyFails envBusy (UpgradeReleaseInProject envBusy "t1" "p1" relA true 0) ∧
     busyFails envBusy (RemoveReleaseInProject envBusy "t1" "p1" "a" true 0 false) ∧
     ∀ n u, (WalmError.projectBusy n u).message =
       "please wait for the project latest task " ++ n ++ "-" ++ u ++ " finished or timeout") :=
  ⟨by simp [paramsS1],
   C1_single_flight_busy envBusy "t1" "p1" paramsS1 relA "a" true 0 false (by simp [paramsS1])⟩

/-- C7: `DeleteProject` on a `(namespace, name)` for which no project cache
exists returns success (nil error), submits no delete task, and performs no
cache write. -/
theorem C7_delete_missing_noop (env : Env) (nspace project : String)
    (async : Bool) (timeoutSec : Int) (deletePvcs : Bool)
    (h : env.lookup = CacheLookup.notFound) :
    DeleteProject env nspace project async timeoutSec deletePvcs = ⟨none, [], []⟩ := by
  simp [DeleteProject, validateProjectTask, h, IsNotFoundError]

theorem C7_delete_missing_noop_witness :
    envNotFound.lookup = CacheLookup.notFound ∧
      DeleteProject envNotFound "t1" "p1" true 0 false = ⟨none, [], []⟩ :=
  ⟨rfl, C7_delete_missing_noop envNotFound "t1" "p1" true 0 false rfl⟩

/-- C6 counterexample: contrary to the claim, `UpgradeReleaseInProject`
*does* silently swallow a NotFound cache lookup into a success return
(`project.go` lines 283-285 return nil), exactly as Delete and Remove do:
on a missing cache it returns nil error, submits no task and writes no
cache entry. -/
theorem C6_upgrade_swallows_notfound_counterexample :
    UpgradeReleaseInProject envNotFound "t1" "p1" relA true 0 = ⟨none, [], []⟩ := by
  decide

/-- C6 amended: when the cache lookup returns NotFound, all three of
`DeleteProject`, `RemoveReleaseInProject` and `UpgradeReleaseInProject`
swallow the error and return success (nil error) with no task submitted and
no cache write; Upgrade is not an exception. -/
theorem C6_notfound_swallow_amended (env : Env) (nspace projectName : String)
    (releaseParams : ReleaseRequestV2) (releaseName : String)
    (async : Bool) (timeoutSec : Int) (deletePvcs : Bool)
    (h : env.lookup = CacheLookup.notFound) :
    UpgradeReleaseInProject env nspace projectName releaseParams async timeoutSec
        = ⟨none, [], []⟩ ∧
    DeleteProject env nspace projectName async timeoutSec deletePvcs = ⟨none, [], []⟩ ∧
    RemoveReleaseInProject env nspace projectName releaseName async timeoutSec deletePvcs
        = ⟨none, [], []⟩ := by
  refine ⟨?_, ?_, ?_⟩ <;>
    simp [UpgradeReleaseInProject, DeleteProject, RemoveReleaseInProject,
      validateProjectTask, h, IsNotFoundError]

theorem C6_notfound_swallow_amended_witness :
    envNotFound.lookup = CacheLookup.notFound ∧
      (UpgradeReleaseInProject envNotFound "t1" "p1" relA true 0 = ⟨none, [], []⟩ ∧
       DeleteProject envNotFound "t1" "p1" true 0 false = ⟨none, [], []⟩ ∧
       RemoveReleaseInProject envNotFound "t1" "p1" "a" true 0 false = ⟨none, [], []⟩) :=
  ⟨rfl, C6_notfound_swallow_amended envNotFound "t1" "p1" relA "a" true 0 false rfl⟩

/-- C8: after single-flight validation succeeds, Upgrade and Remove scan
the project's releases (via `buildProjectInfo`) for the named release; if it
is absent, Upgrade fails with the error whose message is
`release <r> is not found in project <p>` and submits no task, while Remove
returns success (nil error) and submits no task. -/
theorem C8_missing_release_precheck (env : Env) (pc : ProjectCache)
    (nspace projectName : String) (releaseParams : ReleaseRequestV2)
    (releaseName : String) (async : Bool) (timeoutSec : Int) (deletePvcs : Bool)
    (rels : List ReleaseInfoV2)
    (hl : env.lookup = CacheLookup.found pc true)
    (hr : env.listReleases = Except.ok rels)
    (hup : rels.any (fun r => r.name == releaseParams.name) = false)
    (hrm : rels.any (fun r => r.name == releaseName) = false) :
    UpgradeReleaseInProject env nspace projectName releaseParams async timeoutSec
        = ⟨some (.releaseNotInProject releaseParams.name projectName), [], []⟩ ∧
    (WalmError.releaseNotInProject releaseParams.name projectName).message
        = "release " ++ releaseParams.name ++ " is not found in project " ++ projectName ∧
    RemoveReleaseInProject env nspace projectName releaseName async timeoutSec deletePvcs
        = ⟨none, [], []⟩ := by
  refine ⟨?_, rfl, ?_⟩ <;>
    simp [UpgradeReleaseInProject, RemoveReleaseInProject, validateProjectTask,
      buildProjectInfo, hl, hr, hup, hrm, IsNotFoundError]

theorem C8_missing_release_precheck_witness :
    ((envReady []).lookup = CacheLookup.found pcBusy true ∧
     (envReady []).listReleases = Except.ok [] ∧
     (List.any [] (fun (r : ReleaseInfoV2) => r.name == relA.name) = false) ∧
     (List.any [] (fun (r : ReleaseInfoV2) => r.name == "b") = false)) ∧
    (UpgradeReleaseInProject (envReady []) "t1" "p1" relA true 0
        = ⟨some (.releaseNotInProject relA.name "p1"), [], []⟩ ∧
     (WalmError.releaseNotInProject relA.name "p1").message
        = "release " ++ relA.name ++ " is not found in project " ++ "p1" ∧
     RemoveReleaseInProject (envReady []) "t1" "p1" "b" true 0 false = ⟨none, [], []⟩) :=
  ⟨⟨rfl, rfl, rfl, rfl⟩,
    C8_missing_release_precheck (envReady []) pcBusy "t1" "p1" relA "b" true 0 false []
      rfl rfl rfl rfl⟩

/-- Every cache entry written by the shared submit/write/await tail carries
the timeout it was called with. -/
theorem submitWrites60 (env : Env) (args : TaskArgs) (nspace name : String) (async : Bool) :
    (submitAndFinish env args nspace name 60 async).cacheWrites.all
      (fun pc => pc.latestTaskTimeoutSec == 60) = true := by
  obtain ⟨lk, st, cw, lr, ts, wr⟩ := env
  cases st <;> cases cw <;> cases async <;> cases wr <;> simp [submitAndFinish]

/-- A failed latest task, with the error text of scenario S6. -/
def tsFail : WalmTaskState := ⟨"uuid-1", "create_project", "kubelet EOF", .failure⟩

/-- C3 counterexample: on a failed latest task the code formats the message
with a space before the colon — `" failed : "` (`project.go` line 118) —
so the message is not the claimed `"the project latest task <name>-<uuid>
failed: <err>"`. -/
theorem C3_failed_message_counterexample :
    buildProjectInfo pcBusy (some tsFail) (.ok []) =
      .ok ⟨pcBusy, [], some tsFail, false,
        "the project latest task create_project-uuid-1 failed : kubelet EOF"⟩ ∧
    "the project latest task create_project-uuid-1 failed : kubelet EOF" ≠
      "the project latest task create_project-uuid-1 failed: kubelet EOF" :=
  ⟨rfl, by decide⟩

/-- The decision table of `buildProjectInfo` as a predicate on its result:
nil/unnamed/successful latest task derives (ready, message) from the
releases alone; a failed task masks release readiness with the failure
message (space before the colon, as in the code); an in-progress task
yields the wait message; and the releases-alone derivation is spelled
out. -/
def BuildInfoTable (pc : ProjectCache) (ts : Option WalmTaskState)
    (rels : List ReleaseInfoV2) (info : ProjectInfo) : Prop :=
  ((ts = none ∨ (∃ s, ts = some s ∧ (s.taskName = "" ∨ s.IsSuccess = true))) →
      (info.ready, info.message) = isProjectReadyByReleases rels) ∧
  (∀ s, ts = some s → s.taskName ≠ "" → s.IsFailure = true →
      info.ready = false ∧
      info.message = "the project latest task " ++ pc.latestTaskSignature.name ++ "-"
        ++ pc.latestTaskSignature.uuid ++ " failed : " ++ s.error) ∧
  (∀ s, ts = some s → s.taskName ≠ "" → s.IsSuccess = false → s.IsFailure = false →
      info.ready = false ∧
      info.message = "please wait for the project latest task "
        ++ pc.latestTaskSignature.name ++ "-" ++ pc.latestTaskSignature.uuid
        ++ " finished") ∧
  (rels = [] → isProjectReadyByReleases rels = (false, "no release can be found")) ∧
  (rels ≠ [] →
      ((isProjectReadyByReleases rels).1 = rels.all (fun r => r.ready) ∧
       ∀ r, rels.find? (fun r => !r.ready) = some r →
         isProjectReadyByReleases rels = (false, r.message)))

/-- C3 amended: `buildProjectInfo` computes `(ready, message)` by the
decision table — a nil, unnamed or successful latest task derives the pair
from the releases alone (empty set: not ready, `no release can be found`;
otherwise ready iff every release is ready, message copied from the first
non-ready release); a failed latest task gives, regardless of the release
set, ready=false and message
`the project latest task <name>-<uuid> failed : <err>` (with a space
before the colon); an in-progress task gives ready=false and message
`please wait for the project latest task <name>-<uuid> finished`. -/
theorem C3_build_project_info_amended (pc : ProjectCache) (ts : Option WalmTaskState)
    (rels : List ReleaseInfoV2) (info : ProjectInfo)
    (h : buildProjectInfo pc ts (.ok rels) = .ok info) :
    BuildInfoTable pc ts rels info := by
  unfold BuildInfoTable
  refine ⟨?_, ?_, ?_, ?_, ?_⟩
  · rintro (rfl | ⟨s, rfl, hcase⟩)
    · simp only [buildProjectInfo] at h
      injection h with h'
      subst h'
      rfl
    · rcases hcase with htn | hsucc
      · have hb : (s.taskName == "") = true := by simp [htn]
        simp only [buildProjectInfo, hb] at h
        injection h with h'
        subst h'
        rfl
      · by_cases htn : s.taskName = ""
        · simp only [buildProjectInfo, htn] at h
          injection h with h'
          subst h'
          rfl
        · have hb : (s.taskName == "") = false := by
            simpa using htn
          simp only [buildProjectInfo, hb, hsucc] at h
          injection h with h'
          subst h'
          rfl
  · rintro s rfl htn hf
    have hb : (s.taskName == "") = false := by simpa using htn
    have hstate : s.state = TaskStateKind.failure := by
      simpa [WalmTaskState.IsFailure] using hf
    have hsucc : s.IsSuccess = false := by
      simp [WalmTaskState.IsSuccess, hstate]
    simp only [buildProjectInfo, hb, hsucc, hf] at h
    injection h with h'
    subst h'
    exact ⟨rfl, rfl⟩
  · rintro s rfl htn hsucc hf
    have hb : (s.taskName == "") = false := by simpa using htn
    simp only [buildProjectInfo, hb, hsucc, hf] at h
    injection h with h'
    subst h'
    exact ⟨rfl, rfl⟩
  · rintro rfl
    rfl
  · intro hne
    have hlen : 0 < rels.length := List.length_pos.mpr hne
    constructor
    · cases hf : rels.find? (fun r => !r.ready) with
      | none =>
        have hall : ∀ r ∈ rels, r.ready = true := by
          intro r hr
          have := List.find?_eq_none.mp hf r hr
          simpa using this
        have htrue : rels.all (fun r => r.ready) = true :=
          List.all_eq_true.mpr (fun x hx => hall x hx)
        simp [isProjectReadyByReleases, hlen, hf, htrue]
      | some r =>
        have hmem : r ∈ rels := List.mem_of_find?_eq_some hf
        have hnr : r.ready = false := by
          have := List.find?_some hf
          simpa using this
        have hfalse : rels.all (fun r => r.ready) = false := by
          apply Bool.eq_false_iff.mpr
          intro hall
          have := (List.all_eq_true.mp hall) r hmem
          simp [hnr] at this
        simp [isProjectReadyByReleases, hlen, hf, hfalse]
    · intro r hf
      simp [isProjectReadyByReleases, hlen, hf]

/-- The `ProjectInfo` built for `pcBusy` under the failed task `tsFail`. -/
def infoFail : ProjectInfo :=
  ⟨pcBusy, [], some tsFail, false,
    "the project latest task create_project-uuid-1 failed : kubelet EOF"⟩

theorem C3_build_project_info_amended_witness :
    buildProjectInfo pcBusy (some tsFail) (Except.ok []) = Except.ok infoFail ∧
      BuildInfoTable pcBusy (some tsFail) [] infoFail :=
  ⟨rfl, C3_build_project_info_amended pcBusy (some tsFail) [] infoFail rfl⟩

/-- C9: every mutating operation called with `timeoutSec = 0` replaces the
timeout with `defaultTimeoutSec = 60` before the cache write, so every
project cache entry it writes carries `latestTaskTimeoutSec = 60`; in
particular (S1) an async `CreateProject` with timeout 0 and no existing
cache writes exactly the cache `{t1, p1, sig, 60}`, submits one create
task, and returns nil. -/
theorem C9_timeout_normalization (env : Env) (nspace projectName : String)
    (projectParams : ProjectParams) (releaseParams : ReleaseRequestV2)
    (releaseName : String) (async : Bool) (deletePvcs : Bool) :
    (CreateProject env nspace projectName projectParams async 0).cacheWrites.all
        (fun pc => pc.latestTaskTimeoutSec == 60) = true ∧
    (DeleteProject env nspace projectName async 0 deletePvcs).cacheWrites.all
        (fun pc => pc.latestTaskTimeoutSec == 60) = true ∧
    (AddReleasesInProject env nspace projectName projectParams async 0).cacheWrites.all
        (fun pc => pc.latestTaskTimeoutSec == 60) = true ∧
    (UpgradeReleaseInProject env nspace projectName releaseParams async 0).cacheWrites.all
        (fun pc => pc.latestTaskTimeoutSec == 60) = true ∧
    (RemoveReleaseInProject env nspace projectName releaseName async 0 deletePvcs).cacheWrites.all
        (fun pc => pc.latestTaskTimeoutSec == 60) = true ∧
    CreateProject envNotFound "t1" "p1" paramsS1 true 0 =
      ⟨none, [.createProject "t1" "p1" paramsS1], [⟨"t1", "p1", sig1, 60⟩]⟩ := by
  obtain ⟨lk, st, cw, lr, ts, wr⟩ := env
  refine ⟨?_, ?_, ?_, ?_, ?_, by rfl⟩
  · rcases projectParams with ⟨prels⟩
    cases prels with
    | nil => simp [CreateProject]
    | cons rh rt =>
      cases lk with
      | readError m => simp [CreateProject, validateProjectTask]
      | notFound =>
          simpa [CreateProject, validateProjectTask, defaultTimeoutSec] using
            submitWrites60 ⟨.notFound, st, cw, lr, ts, wr⟩ _ _ _ async
      | found pc fin =>
        cases fin
        · simp [CreateProject, validateProjectTask]
        · simpa [CreateProject, validateProjectTask, defaultTimeoutSec] using
            submitWrites60 ⟨.found pc true, st, cw, lr, ts, wr⟩ _ _ _ async
  · cases lk with
    | readError m => simp [DeleteProject, validateProjectTask, IsNotFoundError]
    | notFound => simp [DeleteProject, validateProjectTask, IsNotFoundError]
    | found pc fin =>
      cases fin
      · simp [DeleteProject, validateProjectTask, IsNotFoundError]
      · simpa [DeleteProject, validateProjectTask, defaultTimeoutSec] using
          submitWrites60 ⟨.found pc true, st, cw, lr, ts, wr⟩ _ _ _ async
  · rcases projectParams with ⟨prels⟩
    cases prels with
    | nil => simp [AddReleasesInProject]
    | cons rh rt =>
      cases lk with
      | readError m => simp [AddReleasesInProject, validateProjectTask]
      | notFound =>
          simpa [AddReleasesInProject, validateProjectTask, defaultTimeoutSec] using
            submitWrites60 ⟨.notFound, st, cw, lr, ts, wr⟩ _ _ _ async
      | found pc fin =>
        cases fin
        · simp [AddReleasesInProject, validateProjectTask]
        · simpa [AddReleasesInProject, validateProjectTask, defaultTimeoutSec] using
            submitWrites60 ⟨.found pc true, st, cw, lr, ts, wr⟩ _ _ _ async
  · cases lk with
    | readError m => simp [UpgradeReleaseInProject, validateProjectTask, IsNotFoundError]
    | notFound => simp [UpgradeReleaseInProject, validateProjectTask, IsNotFoundError]
    | found pc fin =>
      cases fin
      · simp [UpgradeReleaseInProject, validateProjectTask, IsNotFoundError]
      · cases lr with
        | error m =>
            simp [UpgradeReleaseInProject, validateProjectTask, IsNotFoundError,
              buildProjectInfo]
        | ok rels =>
          cases hany : rels.any (fun r => r.name == releaseParams.name)
          · simp [UpgradeReleaseInProject, validateProjectTask, IsNotFoundError,
              buildProjectInfo, hany]
          · simpa [UpgradeReleaseInProject, validateProjectTask, IsNotFoundError,
              buildProjectInfo, hany, defaultTimeoutSec] using
              submitWrites60 ⟨.found pc true, st, cw, .ok rels, ts, wr⟩ _ _ _ async
  · cases lk with
    | readError m => simp [RemoveReleaseInProject, validateProjectTask, IsNotFoundError]
    | notFound => simp [RemoveReleaseInProject, validateProjectTask, IsNotFoundError]
    | found pc fin =>
      cases fin
      · simp [RemoveReleaseInProject, validateProjectTask, IsNotFoundError]
      · cases lr with
        | error m =>
            simp [RemoveReleaseInProject, validateProjectTask, IsNotFoundError,
              buildProjectInfo]
        | ok rels =>
          cases hany : rels.any (fun r => r.name == releaseName)
          · simp [RemoveReleaseInProject, validateProjectTask, IsNotFoundError,
              buildProjectInfo, hany]
          · simpa [RemoveReleaseInProject, validateProjectTask, IsNotFoundError,
              buildProjectInfo, hany, defaultTimeoutSec] using
              submitWrites60 ⟨.found pc true, st, cw, .ok rels, ts, wr⟩ _ _ _ async

/-! ## Claims about the dependency resolvers -/

/-- Edges of `connect` are the old edges plus possibly the new one. -/
theorem mem_connect_edges {g : StrGraph} {x e : String × String}
    (h : e ∈ (g.connect x).edges) : e ∈ g.edges ∨ e = x := by
  unfold StrGraph.connect at h
  split at h
  · exact Or.inl h
  · rcases List.mem_append.mp h with h' | h'
    · exact Or.inl h'
    · exact Or.inr (by simpa using h')

/-- Edges after `connectAll` come from the base graph or the added list. -/
theorem mem_connectAll_edges {l : List (String × String)} {g : StrGraph}
    {e : String × String} (h : e ∈ (g.connectAll l).edges) :
    e ∈ g.edges ∨ e ∈ l := by
  induction l generalizing g with
  | nil => exact Or.inl h
  | cons x t ih =>
    rcases ih (g := g.connect x) h with h' | h'
    · rcases mem_connect_edges h' with h'' | h''
      · exact Or.inl h''
      · exact Or.inr (by simp [h''])
    · exact Or.inr (List.mem_cons_of_mem x h')

/-- Adding vertices never adds edges. -/
theorem addAll_edges (l : List ReleaseInfoV2) (g : StrGraph) :
    (l.foldl (fun (g : StrGraph) r => g.add r.name) g).edges = g.edges := by
  induction l generalizing g with
  | nil => rfl
  | cons r t ih =>
    rw [List.foldl_cons, ih]
    unfold StrGraph.add
    split <;> rfl

/-- Membership in `UpEdges(v)` is exactly an edge into `v`. -/
theorem mem_upEdges {g : StrGraph} {u v : String} :
    u ∈ g.upEdges v ↔ (u, v) ∈ g.edges := by
  unfold StrGraph.upEdges
  constructor
  · intro h
    rcases List.mem_map.mp h with ⟨e, he, rfl⟩
    rcases List.mem_filter.mp he with ⟨hmem, hv⟩
    have : e.2 = v := by simpa using hv
    rcases e with ⟨e1, e2⟩
    subst this
    exact hmem
  · intro h
    exact List.mem_map.mpr ⟨(u, v), List.mem_filter.mpr ⟨h, by simp⟩, rfl⟩

/-- Edges of the init-phase graph all come from dependency values:
the source is an existing release's name and the target one of its
dependency values. -/
theorem mem_initGraph_edges {rels : List ReleaseInfoV2} {e : String × String}
    (h : e ∈ (runtimeInitGraph rels).edges) :
    ∃ r ∈ rels, e.1 = r.name ∧ e.2 ∈ depsValues r.dependencies := by
  unfold runtimeInitGraph at h
  rcases mem_connectAll_edges h with h' | h'
  · rw [addAll_edges] at h'
    simp at h'
  · unfold runtimeInitEdges at h'
    rcases List.mem_flatMap.mp h' with ⟨r, hr, hmem⟩
    rcases List.mem_map.mp hmem with ⟨v, hv, rfl⟩
    exact ⟨r, hr, rfl, hv⟩

/-- In a list whose release names are pairwise distinct, members are
determined by their name. -/
theorem nodup_names_inj {rels : List ReleaseInfoV2}
    (hnd : (rels.map (fun r => r.name)).Nodup)
    {a b : ReleaseInfoV2} (ha : a ∈ rels) (hb : b ∈ rels) (hab : a.name = b.name) :
    a = b := by
  induction rels with
  | nil => cases ha
  | cons r t ih =>
    rw [List.map_cons, List.nodup_cons] at hnd
    rcases List.mem_cons.mp ha with rfl | ha' <;> rcases List.mem_cons.mp hb with rfl | hb'
    · rfl
    · exact absurd (hab ▸ List.mem_map.mpr ⟨b, hb', rfl⟩) hnd.1
    · exact absurd (hab ▸ List.mem_map.mpr ⟨a, ha', rfl⟩) hnd.1
    · exact ih hnd.2 ha' hb'

/-- A successful `buildReleaseRequest` is the projection of a project
release with the requested name. -/
theorem buildReleaseRequest_some {pi : ProjectInfo} {u : String} {ur : ReleaseRequestV2}
    (h : buildReleaseRequest pi u = some ur) :
    ∃ R ∈ pi.releases, R.name = u ∧
      ur = ⟨R.name, R.repoName, R.chartName, R.chartVersion, R.dependencies⟩ := by
  unfold buildReleaseRequest at h
  rcases hf : pi.releases.find? (fun r => r.name == u) with _ | R
  · rw [hf] at h
    cases h
  · rw [hf] at h
    have hmem := List.mem_of_find?_eq_some hf
    have hname : R.name = u := by
      have := List.find?_some hf
      simpa using this
    refine ⟨R, hmem, hname, ?_⟩
    injection h with h'
    exact h'.symm

/-- Deleting a key removes every entry with that key. -/
theorem depsHasKey_delete (d : DepMap) (k : String) :
    depsHasKey (DeleteReleaseDependency d k) k = false := by
  cases d with
  | none => rfl
  | some l =>
    simp only [depsHasKey, DeleteReleaseDependency]
    rw [Bool.eq_false_iff]
    intro hany
    rcases List.any_eq_true.mp hany with ⟨p, hp, hk⟩
    rcases List.mem_filter.mp hp with ⟨_, hne⟩
    simp at hne hk
    exact hne hk

/-- Membership in the remove-path affected list comes from a parent whose
projection succeeded, with the outgoing chart entry deleted. -/
theorem mem_runtimeRemoveRewrite {pi : ProjectInfo} {rp : ReleaseRequestV2}
    {uppers : List String} {U : ReleaseRequestV2}
    (h : U ∈ runtimeRemoveRewrite pi rp uppers) :
    ∃ u ∈ uppers, ∃ ur, buildReleaseRequest pi u = some ur ∧
      U = { ur with dependencies := DeleteReleaseDependency ur.dependencies rp.chartName } := by
  unfold runtimeRemoveRewrite at h
  rcases List.mem_filterMap.mp h with ⟨u, hu, hmap⟩
  rcases hb : buildReleaseRequest pi u with _ | ur
  · rw [hb] at hmap
    cases hmap
  · rw [hb] at hmap
    injection hmap with h'
    exact ⟨u, hu, ur, hb, h'.symm⟩

/-- What C5 asserts of each affected release of a remove call: it matches
a project release of the same name that previously listed the outgoing
release's name among its dependency values, and its map is that release's
map with every entry keyed by the outgoing chart name deleted — in
particular the key is gone. -/
def RemoveAffectedSpec (pi : ProjectInfo) (rp : ReleaseRequestV2)
    (affected : List ReleaseRequestV2) : Prop :=
  ∀ U ∈ affected, ∃ R ∈ pi.releases, R.name = U.name ∧
    rp.name ∈ depsValues R.dependencies ∧
    U.dependencies = DeleteReleaseDependency R.dependencies rp.chartName ∧
    depsHasKey U.dependencies rp.chartName = false

/-- C5: for every remove invocation of `brainFuckRuntimeDepParse`
(`isRemove = true`, release names of the project pairwise distinct), every
release `U` in the returned affected list corresponds to a project release
of the same name that previously listed the outgoing release's *name*
among its dependency values, and after the call `U`'s dependency map is
that release's map with every entry keyed by the outgoing release's *chart
name* deleted — in particular it no longer contains any entry with that
key. -/
theorem C5_remove_affected (autoDeps : String → String → String → Except String (List String))
    (pi : ProjectInfo) (rp : ReleaseRequestV2)
    (out : List ReleaseRequestV2 × ReleaseRequestV2)
    (hnd : (pi.releases.map (fun r => r.name)).Nodup)
    (h : brainFuckRuntimeDepParse autoDeps pi rp true = .ok out) :
    RemoveAffectedSpec pi rp out.1 := by
  unfold RemoveAffectedSpec
  unfold brainFuckRuntimeDepParse at h
  rw [if_pos rfl] at h
  injection h with h'
  subst h'
  intro U hU
  rcases mem_runtimeRemoveRewrite hU with ⟨u, hu, ur, hbuild, rfl⟩
  rcases buildReleaseRequest_some hbuild with ⟨R, hR, hRname, rfl⟩
  have hedge : (u, rp.name) ∈ (runtimeInitGraph pi.releases).edges := mem_upEdges.mp hu
  rcases mem_initGraph_edges hedge with ⟨R', hR', hname', hval⟩
  have : R' = R := nodup_names_inj hnd hR' hR (by rw [← hname', hRname])
  subst this
  exact ⟨R', hR', rfl, hval, rfl, depsHasKey_delete R'.dependencies rp.chartName⟩

/-- A helm client whose charts declare no subcharts at all. -/
def adNone : String → String → String → Except String (List String) :=
  fun _ _ _ => .ok []

/-- Live release `a` of chart `zk` (scenario S4). -/
def infoA : ReleaseInfoV2 := ⟨"a", "stable", "zk", "1.0", some [], true, ""⟩

/-- Live release `b` of chart `kafka` depending on `a` (scenario S4). -/
def infoB : ReleaseInfoV2 := ⟨"b", "stable", "kafka", "1.0", some [("zk", "a")], true, ""⟩

/-- The S4 project: releases `a` and `b`. -/
def piS4 : ProjectInfo := ⟨pcBusy, [infoA, infoB], none, true, ""⟩

/-- The outgoing release request for removing `a`. -/
def reqA : ReleaseRequestV2 := ⟨"a", "stable", "zk", "1.0", some []⟩

/-- The remove-path result on S4: `b` loses its `zk` entry. -/
def affectedS4 : List ReleaseRequestV2 × ReleaseRequestV2 :=
  ([⟨"b", "stable", "kafka", "1.0", some []⟩], reqA)

theorem C5_remove_affected_witness :
    ((piS4.releases.map (fun r => r.name)).Nodup ∧
      brainFuckRuntimeDepParse adNone piS4 reqA true = .ok affectedS4) ∧
    RemoveAffectedSpec piS4 reqA affectedS4.1 :=
  ⟨⟨by decide, rfl⟩,
    C5_remove_affected adNone piS4 reqA affectedS4 (by decide) rfl⟩

/-- Adding a vertex never changes the edges. -/
theorem add_edges (g : StrGraph) (v : String) : (g.add v).edges = g.edges := by
  unfold StrGraph.add
  split <;> rfl

/-- When the per-release auto-dependency loop succeeds, each release is
paired with its own result. -/
theorem autoDepsForEach_ok {α : Type} {f : α → Except String (List String)}
    {l : List α} {out : List (List String)}
    (h : autoDepsForEach f l = .ok out) :
    ∀ p ∈ l.zip out, f p.1 = .ok p.2 := by
  induction l generalizing out with
  | nil =>
    intro p hp
    simp at hp
  | cons a t ih =>
    unfold autoDepsForEach at h
    cases hf : f a with
    | error m =>
      rw [hf] at h
      cases h
    | ok sc =>
      rw [hf] at h
      cases hr : autoDepsForEach f t with
      | error m =>
        rw [hr] at h
        cases h
      | ok rest =>
        rw [hr] at h
        injection h with h'
        subst h'
        intro p hp
        rcases List.mem_cons.mp hp with rfl | hp'
        · exact hf
        · exact ih hr p hp'

/-- Membership in the add-path edges from existing releases to the
incoming release. -/
theorem mem_runtimeUpperChartEdges {rels : List ReleaseInfoV2}
    {scl : List (List String)} {rp : ReleaseRequestV2} {e : String × String}
    (h : e ∈ runtimeUpperChartEdges rels scl rp) :
    ∃ p ∈ rels.zip scl, rp.chartName ∈ p.2 ∧
      depsHasKey p.1.dependencies rp.chartName = false ∧ e = (p.1.name, rp.name) := by
  unfold runtimeUpperChartEdges at h
  rcases List.mem_flatMap.mp h with ⟨p, hp, hmem⟩
  rcases List.mem_filterMap.mp hmem with ⟨s, hs, hcond⟩
  split at hcond
  · rename_i hc
    injection hcond with h'
    rw [Bool.and_eq_true] at hc
    have hsk : s = rp.chartName := by simpa using hc.1
    subst hsk
    have hkey : depsHasKey p.1.dependencies rp.chartName = false := by
      simpa using hc.2
    exact ⟨p, hp, hs, hkey, h'.symm⟩
  · cases hcond

/-- Membership in the add-path edges out of the incoming release: the
source is the incoming release's name. -/
theorem mem_runtimeIncomingEdges {rels : List ReleaseInfoV2}
    {rp : ReleaseRequestV2} {rsc : List String} {e : String × String}
    (h : e ∈ runtimeIncomingEdges rels rp rsc) :
    ∃ r ∈ rels, e = (rp.name, r.name) := by
  unfold runtimeIncomingEdges at h
  rcases List.mem_flatMap.mp h with ⟨s, hs, hmem⟩
  split at hmem
  · simp at hmem
  · rcases List.mem_filterMap.mp hmem with ⟨r, hr, hcond⟩
    split at hcond
    · injection hcond with h'
      exact ⟨r, hr, h'.symm⟩
    · cases hcond

/-- Membership in the upper-stream rewrite output of the add path. -/
theorem mem_runtimeUpperRewrite {pi : ProjectInfo} {rp : ReleaseRequestV2}
    {uppers : List String} {U : ReleaseRequestV2}
    (h : U ∈ runtimeUpperRewrite pi rp uppers) :
    ∃ u ∈ uppers, ∃ ur, buildReleaseRequest pi u = some ur ∧
      U = (if depsHasKey ur.dependencies rp.chartName then ur
           else { ur with dependencies := some (assocSet (ur.dependencies.getD []) rp.chartName rp.name) }) := by
  induction uppers with
  | nil => simp [runtimeUpperRewrite] at h
  | cons u t ih =>
    unfold runtimeUpperRewrite at h
    split at h
    · rcases ih h with ⟨u', hu', rest⟩
      exact ⟨u', List.mem_cons_of_mem u hu', rest⟩
    · rename_i ur hb
      rcases List.mem_cons.mp h with rfl | h'
      · exact ⟨u, List.mem_cons_self u t, ur, hb, rfl⟩
      · rcases ih h' with ⟨u', hu', rest⟩
        exact ⟨u', List.mem_cons_of_mem u hu', rest⟩

/-- `find?` after a Go map write finds the written entry. -/
theorem assocSet_find (l : List (String × String)) (k v : String) :
    (assocSet l k v).find? (fun p => p.1 == k) = some (k, v) := by
  induction l with
  | nil => simp [assocSet]
  | cons p t ih =>
    unfold assocSet
    split
    · simp
    · rename_i hne
      rw [List.find?_cons_of_neg _ (by simpa using hne)]
      exact ih

/-- What C4 asserts (amended) of each affected release of an add/upgrade
call: it matches a project release of the same name that is a parent of
the incoming release in the constructed graph — it listed the incoming
release's name among its dependency values, or its chart auto-declared the
incoming chart name while its dependencies lacked that key, or
(degenerately) it carries the incoming release's own name — and its
dependency map either gains the entry {incoming chart name ↦ incoming
release name} when the key was previously absent, or is returned
unchanged when the key was already present. -/
def AddAffectedSpec (autoDeps : String → String → String → Except String (List String))
    (pi : ProjectInfo) (rp : ReleaseRequestV2) (affected : List ReleaseRequestV2) : Prop :=
  ∀ U ∈ affected, ∃ R ∈ pi.releases, R.name = U.name ∧
    (rp.name ∈ depsValues R.dependencies ∨
     (∃ l, autoDeps R.repoName R.chartName R.chartVersion = Except.ok l ∧
        rp.chartName ∈ l ∧ depsHasKey R.dependencies rp.chartName = false) ∨
     R.name = rp.name) ∧
    ((depsHasKey R.dependencies rp.chartName = false ∧
      U.dependencies = some (assocSet (R.dependencies.getD []) rp.chartName rp.name) ∧
      depsLookup U.dependencies rp.chartName = some rp.name) ∨
     (depsHasKey R.dependencies rp.chartName = true ∧ U.dependencies = R.dependencies))

/-- C4 amended: for every add/upgrade invocation of
`brainFuckRuntimeDepParse` (`isRemove = false`, release names pairwise
distinct), every release in the returned affected list is a parent of the
incoming release in the constructed graph (through an existing
dependency-value edge, an auto-declared subchart edge, or the degenerate
self-name case), and gains `{incoming.chartName: incoming.name}` exactly
when its dependencies previously lacked the incoming chart name, being
returned with unchanged dependencies otherwise. -/
theorem C4_add_affected_amended
    (autoDeps : String → String → String → Except String (List String))
    (pi : ProjectInfo) (rp : ReleaseRequestV2)
    (out : List ReleaseRequestV2 × ReleaseRequestV2)
    (hnd : (pi.releases.map (fun r => r.name)).Nodup)
    (h : brainFuckRuntimeDepParse autoDeps pi rp false = .ok out) :
    AddAffectedSpec autoDeps pi rp out.1 := by
  unfold brainFuckRuntimeDepParse at h
  rw [if_neg Bool.false_ne_true] at h
  cases hm : autoDepsForEach
      (fun (r : ReleaseInfoV2) => autoDeps r.repoName r.chartName r.chartVersion)
      pi.releases with
  | error m =>
    rw [hm] at h
    cases h
  | ok scl =>
    rw [hm] at h
    cases hrsc : autoDeps rp.repoName rp.chartName rp.chartVersion with
    | error m =>
      rw [hrsc] at h
      cases h
    | ok rsc =>
      rw [hrsc] at h
      injection h with h'
      subst h'
      intro U hU
      rcases mem_runtimeUpperRewrite hU with ⟨u, hu, ur, hbuild, hUeq⟩
      rcases buildReleaseRequest_some hbuild with ⟨R, hR, hRname, hur⟩
      have hud : ur.dependencies = R.dependencies := by rw [hur]
      have hun : ur.name = R.name := by rw [hur]
      refine ⟨R, hR, ?_, ?_, ?_⟩
      · cases hk : depsHasKey R.dependencies rp.chartName <;>
          rw [hud, hk] at hUeq
        · rw [if_neg Bool.false_ne_true] at hUeq
          rw [hUeq, ← hun]
        · rw [if_pos rfl] at hUeq
          rw [hUeq, ← hun]
      · have hedge := mem_upEdges.mp hu
        rcases mem_connectAll_edges hedge with h1 | hInc
        · rcases mem_connectAll_edges h1 with h0 | hUp
          · rw [add_edges] at h0
            rcases mem_initGraph_edges h0 with ⟨R', hR'mem, hfst, hsnd⟩
            have : R' = R := nodup_names_inj hnd hR'mem hR (by rw [← hfst, hRname])
            subst this
            exact Or.inl hsnd
          · rcases mem_runtimeUpperChartEdges hUp with ⟨p, hpzip, hmemchart, hkey, heq⟩
            have hp1 : p.1 ∈ pi.releases := by
              rcases p with ⟨p1, p2⟩
              exact (List.of_mem_zip hpzip).1
            have hu1 : u = p.1.name := congrArg Prod.fst heq
            have : p.1 = R := nodup_names_inj hnd hp1 hR (by rw [← hu1, hRname])
            subst this
            refine Or.inr (Or.inl ⟨p.2, ?_, hmemchart, hkey⟩)
            exact autoDepsForEach_ok hm p hpzip
        · rcases mem_runtimeIncomingEdges hInc with ⟨r, hr, heq⟩
          have hu1 : u = rp.name := congrArg Prod.fst heq
          exact Or.inr (Or.inr (by rw [hRname, hu1]))
      · cases hk : depsHasKey R.dependencies rp.chartName <;>
          rw [hud, hk] at hUeq
        · rw [if_neg Bool.false_ne_true] at hUeq
          refine Or.inl ⟨rfl, ?_, ?_⟩
          · rw [hUeq]
          · rw [hUeq]
            simp only [depsLookup]
            rw [assocSet_find]
            rfl
        · rw [if_pos rfl] at hUeq
          exact Or.inr ⟨rfl, by rw [hUeq, hud]⟩

/-- Live release `u1` of chart `hive`, with a user-declared dependency on
release `b` under the unrelated key `foo`. -/
def infoU1 : ReleaseInfoV2 := ⟨"u1", "stable", "hive", "1.0", some [("foo", "b")], true, ""⟩

/-- Live release `u2` of chart `spark`, already carrying a `zk` entry for a
different release `a`, and a `bar` entry naming `b`. -/
def infoU2 : ReleaseInfoV2 :=
  ⟨"u2", "stable", "spark", "1.0", some [("zk", "a"), ("bar", "b")], true, ""⟩

/-- The project holding `u1` and `u2`. -/
def piC4 : ProjectInfo := ⟨pcBusy, [infoU1, infoU2], none, true, ""⟩

/-- The incoming release `b` of chart `zk`. -/
def reqB : ReleaseRequestV2 := ⟨"b", "stable", "zk", "1.0", some []⟩

/-- C4 counterexample: with no chart auto-declaring anything (`adNone`),
the add path still emits both parents of `b` (their dependency values name
`b`), so the returned affected list contains `u1` — whose chart
auto-declared no subchart, refuting condition (1) — and `u2` — whose map
already had a `zk` entry, refuting condition (2), and that entry still maps
to `"a"`, not the incoming name `"b"`, refuting condition (3). -/
theorem C4_affected_counterexample :
    brainFuckRuntimeDepParse adNone piC4 reqB false =
      .ok ([⟨"u1", "stable", "hive", "1.0", some [("foo", "b"), ("zk", "b")]⟩,
            ⟨"u2", "stable", "spark", "1.0", some [("zk", "a"), ("bar", "b")]⟩], reqB) ∧
    adNone infoU1.repoName infoU1.chartName infoU1.chartVersion = .ok [] ∧
    adNone infoU2.repoName infoU2.chartName infoU2.chartVersion = .ok [] ∧
    depsHasKey infoU2.dependencies reqB.chartName = true ∧
    depsLookup (some [("zk", "a"), ("bar", "b")]) reqB.chartName = some "a" ∧
    reqB.name = "b" := by
  refine ⟨rfl, rfl, rfl, rfl, rfl, rfl⟩

/-- Live release `hive` of chart `hive` (scenario S3). -/
def infoHive : ReleaseInfoV2 := ⟨"hive", "stable", "hive", "1.0", some [], true, ""⟩

/-- The S3 project: a single `hive` release. -/
def piS3 : ProjectInfo := ⟨pcBusy, [infoHive], none, true, ""⟩

/-- The incoming release `hdfs` of chart `hdfs` (scenario S3). -/
def reqHdfs : ReleaseRequestV2 := ⟨"hdfs", "stable", "hdfs", "1.0", some []⟩

/-- A helm client where the `hive` chart auto-declares subchart `hdfs`. -/
def adS3 : String → String → String → Except String (List String) :=
  fun _ c _ => .ok (if c == "hive" then ["hdfs"] else [])

/-- The add-path result on S3: `hive` gains `{hdfs: hdfs}`. -/
def affectedS3 : List ReleaseRequestV2 × ReleaseRequestV2 :=
  ([⟨"hive", "stable", "hive", "1.0", some [("hdfs", "hdfs")]⟩], reqHdfs)

theorem C4_add_affected_amended_witness :
    ((piS3.releases.map (fun r => r.name)).Nodup ∧
      brainFuckRuntimeDepParse adS3 piS3 reqHdfs false = .ok affectedS3) ∧
    AddAffectedSpec adS3 piS3 reqHdfs affectedS3.1 :=
  ⟨⟨by decide, rfl⟩,
    C4_add_affected_amended adS3 piS3 reqHdfs affectedS3 (by decide) rfl⟩

/-- Scenario S5 release `x` of chart `x`, empty (non-nil) dependency map. -/
def relX : ReleaseRequestV2 := ⟨"x", "stable", "x", "1.0", some []⟩

/-- Scenario S5 release `y` of chart `y`. -/
def relY : ReleaseRequestV2 := ⟨"y", "stable", "y", "1.0", some []⟩

/-- Release `x` with a nil dependency map. -/
def relXnil : ReleaseRequestV2 := ⟨"x", "stable", "x", "1.0", none⟩

/-- A helm client where chart `x` auto-declares subchart `y`. -/
def adS5 : String → String → String → Except String (List String) :=
  fun _ c _ => .ok (if c == "x" then ["y"] else [])

/-- Live release `hive` of chart `hive` with a *nil* dependency map. -/
def infoHiveNil : ReleaseInfoV2 := ⟨"hive", "stable", "hive", "1.0", none, true, ""⟩

/-- A project holding only the nil-map `hive` release. -/
def piC10 : ProjectInfo := ⟨pcBusy, [infoHiveNil], none, true, ""⟩

/-- C10: during the walk phase of `brainFuckChartDepParse` the assignment
`releaseRequest.Dependencies[chartName] = name` has no nil-map guard, so on
the bundle `[x (nil dependencies), y]` where chart `x` auto-declares
subchart `y` the walk writes to a nil map and the operation is not total —
the embedding surfaces the run-time fault as `nilMapWrite`; the same
bundle with an empty non-nil map succeeds.  The runtime resolver, by
contrast, initializes nil maps before writing (`project.go` lines 487-489):
adding `hdfs` to a project whose `hive` release has a nil map succeeds and
yields the initialized singleton map.  Totality of the walk body holds
under the precondition that any release acquiring an inferred child has a
non-nil dependency map. -/
theorem C10_nil_map_write :
    brainFuckChartDepParse adS5 ⟨[relXnil, relY]⟩ = .error .nilMapWrite ∧
    brainFuckChartDepParse adS5 ⟨[relX, relY]⟩ =
      .ok [relY, ⟨"x", "stable", "x", "1.0", some [("y", "y")]⟩] ∧
    brainFuckRuntimeDepParse adS3 piC10 reqHdfs false =
      .ok ([⟨"hive", "stable", "hive", "1.0", some [("hdfs", "hdfs")]⟩], reqHdfs) ∧
    (∀ (releases : List ReleaseRequestV2) (edges : List (Nat × Nat)) (i : Nat)
        (r : ReleaseRequestV2), releases.get? i = some r →
      (childrenOf edges i ≠ [] → r.dependencies ≠ none) →
      chartApplyDeps releases edges i ≠ none) := by
  refine ⟨rfl, rfl, rfl, ?_⟩
  intro releases edges i r hget hdep
  unfold chartApplyDeps
  rw [hget]
  cases hemp : (childrenOf edges i).isEmpty
  · have hne : childrenOf edges i ≠ [] := by
      intro hcon
      rw [hcon] at hemp
      simp at hemp
    cases hd : r.dependencies with
    | none => exact absurd hd (hdep hne)
    | some d => simp [hemp, hd]
  · simp [hemp]

theorem C10_nil_map_write_witness :
    (List.get? [relX, relY] 0 = some relX ∧
      (childrenOf [(0, 1)] 0 ≠ [] → relX.dependencies ≠ none)) ∧
    chartApplyDeps [relX, relY] [(0, 1)] 0 ≠ none :=
  ⟨⟨rfl, fun _ => by decide⟩,
    C10_nil_map_write.2.2.2 [relX, relY] [(0, 1)] 0 relX rfl (fun _ => by decide)⟩

/-! ### The topological-order properties of the chart-time walk -/

/-- The name of the release at position `i` of the bundle. -/
def idxName (releases : List ReleaseRequestV2) (i : Nat) : String :=
  ((releases.get? i).map (fun r => r.name)).getD ""

/-- An edge gives membership in the source's child list. -/
theorem mem_childrenOf {edges : List (Nat × Nat)} {i j : Nat}
    (h : (i, j) ∈ edges) : j ∈ childrenOf edges i :=
  List.mem_map.mpr ⟨(i, j), List.mem_filter.mpr ⟨h, by simp⟩, rfl⟩

/-- The visit order returned by the walk is a permutation of the pending
vertices appended to the already-visited ones. -/
theorem walkOrder_perm {ch : Nat → List Nat} :
    ∀ {fuel : Nat} {rem acc l : List Nat},
      walkOrderAux ch fuel rem acc = some l → l.Perm (acc.reverse ++ rem) := by
  intro fuel
  induction fuel with
  | zero =>
    intro rem acc l h
    unfold walkOrderAux at h
    split at h
    · rename_i hemp
      injection h with h'
      subst h'
      rw [List.isEmpty_iff.mp hemp]
      simp
    · cases h
  | succ f ih =>
    intro rem acc l h
    unfold walkOrderAux at h
    split at h
    · rename_i i hf
      have hi : i ∈ rem := List.mem_of_find?_eq_some hf
      have h1 := ih h
      have h2 : rem.Perm (i :: rem.erase i) := List.perm_cons_erase hi
      have h3 : (i :: acc).reverse ++ rem.erase i = acc.reverse ++ (i :: rem.erase i) := by
        simp
      rw [h3] at h1
      exact h1.trans (List.Perm.append_left acc.reverse h2.symm)
    · split at h
      · rename_i hemp
        injection h with h'
        subst h'
        rw [List.isEmpty_iff.mp hemp]
        simp
      · cases h

/-- The invariant of the reversed visit order: every vertex's children were
already visited (appear further towards the tail). -/
def AccOrdered (ch : Nat → List Nat) : List Nat → Prop
  | [] => True
  | i :: rest => (∀ j ∈ ch i, j ∈ rest) ∧ AccOrdered ch rest

/-- The walk preserves `AccOrdered` from the accumulator to the reversed
final order. -/
theorem walkOrder_ordered {ch : Nat → List Nat} :
    ∀ {fuel : Nat} {rem acc l : List Nat},
      walkOrderAux ch fuel rem acc = some l → AccOrdered ch acc →
      AccOrdered ch l.reverse := by
  intro fuel
  induction fuel with
  | zero =>
    intro rem acc l h hacc
    unfold walkOrderAux at h
    split at h
    · injection h with h'
      subst h'
      rwa [List.reverse_reverse]
    · cases h
  | succ f ih =>
    intro rem acc l h hacc
    unfold walkOrderAux at h
    split at h
    · rename_i i hf
      have hp := List.find?_some hf
      have hchild : ∀ j ∈ ch i, j ∈ acc := by
        intro j hj
        have := (List.all_eq_true.mp hp) j hj
        simpa using this
      exact ih h ⟨hchild, hacc⟩
    · split at h
      · injection h with h'
        subst h'
        rwa [List.reverse_reverse]
      · cases h

/-- In an `AccOrdered` list, the children of any element lie strictly
towards the tail. -/
theorem accOrdered_split {ch : Nat → List Nat} :
    ∀ {a1 : List Nat} {i : Nat} {a2 : List Nat},
      AccOrdered ch (a1 ++ i :: a2) → ∀ j ∈ ch i, j ∈ a2 := by
  intro a1
  induction a1 with
  | nil =>
    intro i a2 h j hj
    exact h.1 j hj
  | cons x t ih =>
    intro i a2 h j hj
    exact ih h.2 j hj

/-- A successful walk-body application keeps the release's name. -/
theorem chartApplyDeps_name {releases : List ReleaseRequestV2}
    {edges : List (Nat × Nat)} {i : Nat} {r : ReleaseRequestV2}
    (h : chartApplyDeps releases edges i = some r) :
    ∃ ri, releases.get? i = some ri ∧ r.name = ri.name := by
  unfold chartApplyDeps at h
  split at h
  · cases h
  · rename_i ri hg
    refine ⟨ri, hg, ?_⟩
    split at h
    · injection h with h'
      rw [← h']
    · split at h
      · cases h
      · injection h with h'
        rw [← h']

/-- The names of the walk output are the names at the visited positions. -/
theorem applyDepsAll_names {releases : List ReleaseRequestV2}
    {edges : List (Nat × Nat)} :
    ∀ {ord : List Nat} {out : List ReleaseRequestV2},
      applyDepsAll releases edges ord = some out →
      out.map (fun r => r.name) = ord.map (idxName releases) := by
  intro ord
  induction ord with
  | nil =>
    intro out h
    injection h with h'
    subst h'
    rfl
  | cons i t ih =>
    intro out h
    unfold applyDepsAll at h
    cases ha : chartApplyDeps releases edges i with
    | none =>
      rw [ha] at h
      cases h
    | some r =>
      rw [ha] at h
      cases hrest : applyDepsAll releases edges t with
      | none =>
        rw [hrest] at h
        cases h
      | some rest =>
        rw [hrest] at h
        injection h with h'
        subst h'
        rcases chartApplyDeps_name ha with ⟨ri, hgi, hname⟩
        have hidx : idxName releases i = ri.name := by
          unfold idxName
          rw [hgi]
          rfl
        simp [ih hrest, hidx, hname]

/-- Reading a list through `get?` along `range` reproduces its map. -/
theorem range_map_get {α β : Type} (l : List α) (f : α → β) (d : β) :
    (List.range l.length).map (fun i => ((l.get? i).map f).getD d) = l.map f := by
  induction l with
  | nil => rfl
  | cons a t ih =>
    rw [List.length_cons, List.range_succ_eq_map, List.map_cons, List.map_map, List.map_cons]
    refine congrArg₂ List.cons rfl ?_
    exact ih

/-- A helm client for the counterexample chain: chart `cx` auto-declares
`cy` and chart `cy` auto-declares `cz`. -/
def adC2 : String → String → String → Except String (List String) :=
  fun _ c _ => .ok (if c == "cx" then ["cy"] else if c == "cy" then ["cz"] else [])

/-- Counterexample bundle member `x` of chart `cx`. -/
def rx : ReleaseRequestV2 := ⟨"x", "stable", "cx", "1.0", some []⟩

/-- Counterexample bundle member `y` of chart `cy`. -/
def ry : ReleaseRequestV2 := ⟨"y", "stable", "cy", "1.0", some []⟩

/-- Counterexample bundle member `z` of chart `cz`, with a user-declared
dependency entry whose value names release `x`. -/
def rz : ReleaseRequestV2 := ⟨"z", "stable", "cz", "1.0", some [("w", "x")]⟩

/-- The counterexample bundle. -/
def bundleC2 : ProjectParams := ⟨[rx, ry, rz]⟩

/-- C2 counterexample: on the bundle `[x/cx, y/cy, z/cz]` whose
chart-declared subchart relations form the chain `cx → cy → cz` — a DAG
with the unique root `x` (edge list `[(0,1), (1,2)]`, root candidates
`[0]`) — the parse succeeds and returns `[z, y, x]`; the release name `x`
is among the values of `z`'s dependencies in the output (the user-declared
entry `w ↦ x`), yet `x` appears *after* `z`, refuting the claimed ordering
for pairs induced by arbitrary dependency values. -/
theorem C2_resolver_order_counterexample :
    autoDepsForEach (fun (r : ReleaseRequestV2) => adC2 r.repoName r.chartName r.chartVersion)
        bundleC2.releases = .ok [["cy"], ["cz"], []] ∧
    chartBundleEdges [["cy"], ["cz"], []] bundleC2.releases = [(0, 1), (1, 2)] ∧
    chartRoots 3 [(0, 1), (1, 2)] = [0] ∧
    brainFuckChartDepParse adC2 bundleC2 =
      .ok [⟨"z", "stable", "cz", "1.0", some [("w", "x")]⟩,
           ⟨"y", "stable", "cy", "1.0", some [("cz", "z")]⟩,
           ⟨"x", "stable", "cx", "1.0", some [("cy", "y")]⟩] ∧
    "x" ∈ depsValues (some [("w", "x")]) ∧
    rx.name = "x" ∧ rz.name = "z" := by
  refine ⟨rfl, rfl, rfl, rfl, ?_, rfl, rfl⟩
  decide

/-- C2 amended: whenever `brainFuckChartDepParse` succeeds (its
auto-dependency lookups having returned `scl`), the output release names
are a permutation of the input release names, and for every *edge of the
constructed graph* — position `i` whose chart auto-declares the chart of
position `j`, that chart being in the bundle and not already a key of
`i`'s dependencies — the release of position `j` appears strictly before
the release of position `i` in the output.  The ordering is guaranteed for
graph edges (the entries the walk itself writes), not for arbitrary
pre-existing dependency values.  Scenario S5 holds with empty non-nil
dependency maps: the output order is `[y, x]` and `x` maps `y ↦ y`. -/
theorem C2_resolver_order_amended
    (autoDeps : String → String → String → Except String (List String))
    (pp : ProjectParams) (scl : List (List String)) (out : List ReleaseRequestV2)
    (hm : autoDepsForEach (fun (r : ReleaseRequestV2) => autoDeps r.repoName r.chartName r.chartVersion)
        pp.releases = .ok scl)
    (h : brainFuckChartDepParse autoDeps pp = .ok out) :
    (out.map (fun r => r.name)).Perm (pp.releases.map (fun r => r.name)) ∧
    (∀ i j ri rj, (i, j) ∈ chartBundleEdges scl pp.releases →
      pp.releases.get? i = some ri → pp.releases.get? j = some rj →
      ∃ l1 l2, out = l1 ++ l2 ∧ (∃ B ∈ l1, B.name = rj.name) ∧
        (∃ A ∈ l2, A.name = ri.name)) ∧
    brainFuckChartDepParse adS5 ⟨[relX, relY]⟩ =
      .ok [relY, ⟨"x", "stable", "x", "1.0", some [("y", "y")]⟩] ∧
    depsLookup (some [("y", "y")]) "y" = some "y" := by
  unfold brainFuckChartDepParse at h
  split at h
  · cases h
  · rename_i subChartsList hm2
    rw [hm] at hm2
    injection hm2 with hs
    subst hs
    split at h
    case isFalse => cases h
    case isTrue hroot =>
      split at h
      · cases h
      · rename_i ord hw
        split at h
        · cases h
        · rename_i outw hap
          injection h with h'
          subst h'
          have hperm : ord.Perm (List.range pp.releases.length) := by
            have := walkOrder_perm hw
            simpa using this
          have hnames := applyDepsAll_names hap
          refine ⟨?_, ?_, rfl, rfl⟩
          · rw [hnames]
            exact (hperm.map (idxName pp.releases)).trans
              (by exact (range_map_get pp.releases (fun r => r.name) "").symm ▸ List.Perm.refl _)
          · intro i j ri rj hedge hgi hgj
            have hj : j ∈ childrenOf (chartBundleEdges scl pp.releases) i := mem_childrenOf hedge
            have hilt : i < pp.releases.length := by
              by_contra hle
              rw [List.get?_eq_none.mpr (Nat.le_of_not_lt hle)] at hgi
              cases hgi
            have hiord : i ∈ ord := hperm.mem_iff.mpr (List.mem_range.mpr hilt)
            have hirev : i ∈ ord.reverse := List.mem_reverse.mpr hiord
            rcases List.append_of_mem hirev with ⟨s, t, hst⟩
            have hordd := walkOrder_ordered hw trivial
            rw [hst] at hordd
            have hjt : j ∈ t := accOrdered_split hordd j hj
            have hords : ord = t.reverse ++ i :: s.reverse := by
              have h4 := congrArg List.reverse hst
              rw [List.reverse_reverse] at h4
              rw [h4]
              simp
            have hpre : (outw.take t.reverse.length).map (fun r => r.name)
                = t.reverse.map (idxName pp.releases) := by
              rw [List.map_take, hnames, hords]
              rw [List.map_append]
              exact List.take_left' (by rw [List.length_map])
            have hsuf : (outw.drop t.reverse.length).map (fun r => r.name)
                = (i :: s.reverse).map (idxName pp.releases) := by
              rw [List.map_drop, hnames, hords]
              rw [List.map_append]
              exact List.drop_left' (by rw [List.length_map])
            refine ⟨outw.take t.reverse.length, outw.drop t.reverse.length,
              (List.take_append_drop _ _).symm, ?_, ?_⟩
            · have hjname : idxName pp.releases j = rj.name := by
                unfold idxName
                rw [hgj]
                rfl
              have : rj.name ∈ (outw.take t.reverse.length).map (fun r => r.name) := by
                rw [hpre, ← hjname]
                exact List.mem_map.mpr ⟨j, List.mem_reverse.mpr hjt, rfl⟩
              rcases List.mem_map.mp this with ⟨B, hB, hBname⟩
              exact ⟨B, hB, hBname⟩
            · have hiname : idxName pp.releases i = ri.name := by
                unfold idxName
                rw [hgi]
                rfl
              have : ri.name ∈ (outw.drop t.reverse.length).map (fun r => r.name) := by
                rw [hsuf, ← hiname]
                exact List.mem_map.mpr ⟨i, List.mem_cons_self i s.reverse, rfl⟩
              rcases List.mem_map.mp this with ⟨A, hA, hAname⟩
              exact ⟨A, hA, hAname⟩

theorem C2_resolver_order_amended_witness :
    (autoDepsForEach (fun (r : ReleaseRequestV2) => adS5 r.repoName r.chartName r.chartVersion)
        (ProjectParams.mk [relX, relY]).releases = .ok [["y"], []] ∧
      brainFuckChartDepParse adS5 ⟨[relX, relY]⟩ =
        .ok [relY, ⟨"x", "stable", "x", "1.0", some [("y", "y")]⟩]) ∧
    ((([relY, ⟨"x", "stable", "x", "1.0", some [("y", "y")]⟩] :
          List ReleaseRequestV2).map (fun r => r.name)).Perm
        ((ProjectParams.mk [relX, relY]).releases.map (fun r => r.name))) :=
  ⟨⟨rfl, rfl⟩,
    (C2_resolver_order_amended adS5 ⟨[relX, relY]⟩ [["y"], []]
      [relY, ⟨"x", "stable", "x", "1.0", some [("y", "y")]⟩] rfl rfl).1⟩

end Walm
